import Mathlib

/-!
Verification development for the NSI (name-suggestion-index) tag-upgrade service
(`src/config/envs.mjs`).  The JavaScript source is shallowly embedded:

* OSM tag objects (`FeatureTags`) become ordered association lists
  `List (String × String)`; JavaScript object-key iteration order is insertion
  order (OSM tag keys are never array-index-like strings), property read is
  first-occurrence lookup, property write updates in place or appends, and
  `delete` removes the key.
* JavaScript `Set` values become insertion-ordered duplicate-free lists
  (`addSet` appends only when absent).
* Strings are treated at Unicode-scalar-value granularity; all string literals
  relevant to the claims are ASCII, where JavaScript UTF-16 semantics agree.
* The fixed regular expressions of the source are translated into executable
  Boolean predicates, documented one by one next to their definitions.
* The external collaborators (the fuzzy matcher, the preset manager) enter as
  function-valued fields of the `Nsi` context, mirroring §6 of the spec.
* A JavaScript `TypeError` (property access on `undefined`) is modelled as
  `Except.error "TypeError"`.
-/

namespace NsiSpec

/-- A feature's OSM tags: insertion-ordered association list, unique keys. -/
abbrev Tags := List (String × String)

/-- First-occurrence lookup in an association list (JS property read /
`Map.get`); `none` models `undefined`. -/
def jsLookup {α : Type} (m : List (String × α)) (k : String) : Option α :=
  (m.find? (fun e => e.1 == k)).map (fun e => e.2)

/-- JS property write / `Map.set`: overwrite in place, else append. -/
def mapSet {α : Type} (m : List (String × α)) (k : String) (v : α) : List (String × α) :=
  if m.any (fun e => e.1 == k) then m.map (fun e => if e.1 == k then (k, v) else e)
  else m ++ [(k, v)]

/-- JS `delete obj[k]`. -/
def mapDel {α : Type} (m : List (String × α)) (k : String) : List (String × α) :=
  m.filter (fun e => e.1 != k)

/-- `Object.assign(target, source)`: write every source entry, in order. -/
def objAssign (target source : Tags) : Tags :=
  source.foldl (fun acc e => mapSet acc e.1 e.2) target

/-- JS truthiness of a possibly-undefined string value: defined and non-empty. -/
def truthyO : Option String → Bool
  | some s => s != ""
  | none => false

/-- JS `a || b` on possibly-undefined strings. -/
def jsOrStr (a b : Option String) : Option String :=
  match a with
  | some s => if s != "" then a else b
  | none => b

/-- JS `Set.add`: append only if not already present. -/
def addSet (l : List String) (s : String) : List String :=
  if l.contains s then l else l ++ [s]

/-- `new Set(list)`: de-duplicate keeping first occurrences. -/
def jsSetOfList (l : List String) : List String :=
  l.foldl addSet []

/-! ### Character and string utilities

Core `String` functions are not kernel-reducible, so every string operation
used by the embedding is implemented structurally over `List Char`. -/

/-- Regex `\w`: ASCII letter, digit or underscore (the source's regexes have no
`u` flag, so `\w` is ASCII-only). -/
def wordChar (c : Char) : Bool := c.isAlphanum || c == '_'

/-- The character class JS `\\s` matches (whitespace and BOM), by codepoint:
space, tab, LF, VT, FF, CR, NBSP (U+00A0), Ogham space (U+1680), the U+2000
block, LS (U+2028), PS (U+2029), NNBSP, MMSP, ideographic space, BOM. -/
def jsWhitespaceChar (c : Char) : Bool :=
  c == ' ' || c == '\t' || c == '\n' || c == '\r' ||
  c.toNat == 0x0B || c.toNat == 0x0C || c.toNat == 0xA0 || c.toNat == 0x1680 ||
  (0x2000 ≤ c.toNat && c.toNat ≤ 0x200A) ||
  c.toNat == 0x2028 || c.toNat == 0x2029 || c.toNat == 0x202F ||
  c.toNat == 0x205F || c.toNat == 0x3000 || c.toNat == 0xFEFF

/-- Line terminators, which JS regex `.` does not match (no `s` flag):
LF, CR, LS (U+2028), PS (U+2029). -/
def lineTermChar (c : Char) : Bool :=
  c == '\n' || c == '\r' || c.toNat == 0x2028 || c.toNat == 0x2029

/-- Case-insensitive (`i` flag) comparison uses lower-casing; the source's
literals are ASCII, where JS simple case folding and `Char.toLower` agree. -/
def lowerStr (s : String) : String := String.mk (s.toList.map Char.toLower)

def strStartsWith (s p : String) : Bool := p.toList.isPrefixOf s.toList

def strEndsWith (s p : String) : Bool := p.toList.isSuffixOf s.toList

def strDropChars (s : String) (n : Nat) : String := String.mk (s.toList.drop n)

def strDropRightChars (s : String) (n : Nat) : String :=
  String.mk (s.toList.take (s.toList.length - n))

def strLen (s : String) : Nat := s.toList.length

/-- Does the value contain the list-separator `;` (regex `/;/`)? -/
def hasSemi (v : String) : Bool := v.toList.contains ';'

/-- Whole-string match of `\w+`. -/
def isWordStr (s : String) : Bool := !s.toList.isEmpty && s.toList.all wordChar

/-- JS `String.prototype.split` with a one-character separator (every separator
in the source, `"/"` and `":"`, is one character): `"a//b"` gives
`["a", "", "b"]` and `""` gives `[""]`. -/
def splitOnCharAux (c : Char) (cur : List Char) : List Char → List (List Char)
  | [] => [cur.reverse]
  | x :: xs =>
    if x == c then cur.reverse :: splitOnCharAux c [] xs
    else splitOnCharAux c (x :: cur) xs

def splitOnChar (c : Char) (s : String) : List String :=
  (splitOnCharAux c [] s.toList).map String.mk

/-- JS `String.prototype.replace` with a string pattern: replace the first
occurrence only (`mainTag.replace('wikidata', 'wikipedia')`). -/
def replaceFirstAux (pat repl : List Char) : List Char → List Char
  | [] => []
  | x :: xs =>
    if pat.isPrefixOf (x :: xs) then repl ++ (x :: xs).drop pat.length
    else x :: replaceFirstAux pat repl xs

def jsReplaceFirst (s pat repl : String) : String :=
  String.mk (replaceFirstAux pat.toList repl.toList s.toList)

/-- JS `String.prototype.trim`: strip `\s` characters from both ends. -/
def jsTrim (s : String) : String :=
  String.mk (((s.toList.dropWhile jsWhitespaceChar).reverse.dropWhile jsWhitespaceChar).reverse)

/-! ### The namelike-key regexes of `gatherNames`

All of these carry the `i` flag, so they are applied to the lower-cased key;
`\w` is unaffected by lower-casing. -/

/-- Whole-string match of `\w+_name` (the `\w+` part must be non-empty). -/
def wNameWhole (s : String) : Bool :=
  strEndsWith s "_name" && isWordStr (strDropRightChars s 5)

/-- Whole-string match of `\w+_name:\w+`.  `\w` excludes `:`, so a matching
string contains exactly one colon and splits into the two parts. -/
def wNameColonWhole (s : String) : Bool :=
  match splitOnChar ':' s with
  | [a, b] => wNameWhole a && isWordStr b
  | _ => false

/-- Some prefix of the string matches `\w+_name` (used by the unanchored
default alternate regex): a non-empty all-`\w` segment followed by `_name`. -/
def wNamePre (s : String) : Bool :=
  (List.range s.toList.length).any (fun j =>
    decide (1 ≤ j) && (s.toList.take j).all wordChar &&
    ((s.toList.drop j).take 5 == "_name".toList))

/-- Some prefix of the string matches `\w+_name:\w+`. -/
def wNameColonPre (s : String) : Bool :=
  (List.range s.toList.length).any (fun j =>
    decide (1 ≤ j) && (s.toList.take j).all wordChar &&
    ((s.toList.drop j).take 6 == "_name:".toList) &&
    (match (s.toList.drop (j + 6)).head? with
     | some c => wordChar c
     | none => false))

/-- Route context, primary: `/^network$/i`. -/
def routePrimaryPat (k : String) : Bool := lowerStr k == "network"

/-- Route context, alternate:
`/^(operator|operator:\w+|network:\w+|\w+_name|\w+_name:\w+)$/i`. -/
def routeAlternatePat (k : String) : Bool :=
  let s := lowerStr k
  s == "operator" || (strStartsWith s "operator:" && isWordStr (strDropChars s 9)) ||
  (strStartsWith s "network:" && isWordStr (strDropChars s 8)) ||
  wNameWhole s || wNameColonWhole s

/-- Flagpole context, primary: `/^(flag:name|flag:name:\w+)$/i`. -/
def flagPrimaryPat (k : String) : Bool :=
  let s := lowerStr k
  s == "flag:name" || (strStartsWith s "flag:name:" && isWordStr (strDropChars s 10))

/-- Flagpole context, alternate: `/^(flag|flag:\w+|subject|subject:\w+)$/i`
(the source deliberately leaves `country` out and special-cases it later). -/
def flagAlternatePat (k : String) : Bool :=
  let s := lowerStr k
  s == "flag" || (strStartsWith s "flag:" && isWordStr (strDropChars s 5)) ||
  s == "subject" || (strStartsWith s "subject:" && isWordStr (strDropChars s 8))

/-- Default context, primary: `/^(name|name:\w+)$/i`. -/
def defaultPrimaryPat (k : String) : Bool :=
  let s := lowerStr k
  s == "name" || (strStartsWith s "name:" && isWordStr (strDropChars s 5))

/-- Default context, alternate:
`/^(brand|brand:\w+|operator|operator:\w+|\w+_name|\w+_name:\w+)/i` — note the
missing `$`: only a prefix of the key has to match one of the alternatives. -/
def defaultAlternatePat (k : String) : Bool :=
  let s := lowerStr k
  strStartsWith s "brand" ||
  (strStartsWith s "brand:" &&
    (match (s.toList.drop 6).head? with | some c => wordChar c | none => false)) ||
  strStartsWith s "operator" ||
  (strStartsWith s "operator:" &&
    (match (s.toList.drop 9).head? with | some c => wordChar c | none => false)) ||
  wNamePre s || wNameColonPre s

/-- The fixed exclusion
`/:(colou?r|type|forward|backward|left|right|etymology|pronunciation|wikipedia)$/i`:
unanchored at the start, so it asks whether the key ends in `:` followed by one
of the listed words. -/
def notNamesPat (k : String) : Bool :=
  let s := lowerStr k
  ["color", "colour", "type", "forward", "backward", "left", "right",
   "etymology", "pronunciation", "wikipedia"].any (fun w => strEndsWith s (":" ++ w))

/-- Primary/alternate candidate sets (JS `Set` values as ordered lists). -/
structure SPair where
  primary : List String := []
  alternate : List String := []
deriving DecidableEq

/-- The context-dependent pattern pair picked at the top of `gatherNames`. -/
structure NamePatterns where
  primary : String → Bool
  alternate : String → Bool

/-- `if (tags.route) … else if (tags.man_made === 'flagpole') … else …`. -/
def choosePatterns (tags : Tags) : NamePatterns :=
  if truthyO (jsLookup tags "route") then ⟨routePrimaryPat, routeAlternatePat⟩
  else if jsLookup tags "man_made" == some "flagpole" then ⟨flagPrimaryPat, flagAlternatePat⟩
  else ⟨defaultPrimaryPat, defaultAlternatePat⟩

/-- `isNamelike(osmkey, 'primary')`. -/
def isNamelikePrimary (pats : NamePatterns) (k : String) : Bool :=
  pats.primary k && !notNamesPat k

/-- `isNamelike(osmkey, 'alternate')`. -/
def isNamelikeAlternate (pats : NamePatterns) (k : String) : Bool :=
  pats.alternate k && !notNamesPat k

/-- The main key loop of `gatherNames`, accumulating
(primary set, alternate set, foundSemi flag). -/
def gatherNamesLoop (pats : NamePatterns) :
    List (String × String) → List String × List String × Bool →
    List String × List String × Bool
  | [], acc => acc
  | (k, v) :: rest, (p, a, fs) =>
    if v == "" then gatherNamesLoop pats rest (p, a, fs)
    else if isNamelikePrimary pats k then
      if hasSemi v then gatherNamesLoop pats rest (p, a, true)
      else gatherNamesLoop pats rest (addSet p v, a, fs)
    else if !p.contains v && isNamelikeAlternate pats k then
      if hasSemi v then gatherNamesLoop pats rest (p, a, true)
      else gatherNamesLoop pats rest (p, addSet a v, fs)
    else gatherNamesLoop pats rest (p, a, fs)

/-- `gatherNames(tags)`: gather namelike values; empty result if any candidate
contained a semicolon; flagpole-only `country` fallback. -/
def gatherNames (tags : Tags) : SPair :=
  let pats := choosePatterns tags
  let acc := gatherNamesLoop pats tags ([], [], false)
  let acc :=
    if jsLookup tags "man_made" == some "flagpole" && acc.1.isEmpty &&
       acc.2.1.isEmpty && truthyO (jsLookup tags "country") then
      match jsLookup tags "country" with
      | some cv => if hasSemi cv then (acc.1, acc.2.1, true) else (acc.1, addSet acc.2.1 cv, acc.2.2)
      | none => acc
    else acc
  if acc.2.2 then ⟨[], []⟩ else ⟨acc.1, acc.2.1⟩

/-! ### Data model: matcher hits, items, the loaded `_nsi` context -/

/-- One ranked result of `matcher.match`.  The source's field `match` is a
Lean keyword; it is embedded as `matchKind`. -/
structure Hit where
  itemID : String
  matchKind : String
deriving DecidableEq

/-- A canonical NSI item as cached in `_nsi.ids` after the build step
annotated it with `tkv` and `mainTag`.  `preserveTags` patterns are arbitrary
strings compiled with `new RegExp(s, 'i')`; the embedding represents each
compiled regex by its denotation, a Boolean predicate on keys. -/
structure Item where
  id : String
  tags : Tags
  tkv : String
  mainTag : String
  preserveTags : Option (List (String → Bool)) := none

/-- `category.properties` (only the field the upgrade path reads). -/
structure Properties where
  preserveTags : Option (List (String → Bool)) := none

/-- One `_nsi.data[tkv]` category as read by `_upgradeTags`. -/
structure Category where
  properties : Option Properties := none

/-- One entry of the qid replacement table.  A JS field can be absent
(`none`), or present; a present falsy value (the empty string models it)
means "delete the tag", a present truthy value means "replace it". -/
structure Replacement where
  wikidata : Option String := none
  wikipedia : Option String := none

/-- The loaded module state `_nsi` together with the two external
collaborators the upgrade path calls: `matcher.match` (§6 MatchContract,
parametrised by an abstract location type `L`) and
`presetManager.matchTags(tags, 'area').id`. -/
structure Nsi (L : Type) where
  data : String → Option Category
  dissolved : String → Bool
  replacements : String → Option Replacement
  kvt : List (String × List (String × String))
  qids : String → Option String
  ids : String → Option Item
  matcher : String → String → String → Option L → List Hit
  presetMatchId : Tags → String

/-! ### `gatherKVs` -/

/-- The `buildingPreset` allow-list. -/
def buildingPresetIds : List String :=
  ["building/commercial", "building/government", "building/hotel",
   "building/retail", "building/office", "building/supermarket", "building/yes"]

/-- The key loop of `gatherKVs`: skip empty values; skip keys absent from
`_nsi.kvt`; add `"key/value"` to `primary` unless the value is `"yes"`, else
to `alternate`.  (The value map found under the key is not inspected.) -/
def gatherKVsLoop {L : Type} (nsi : Nsi L) : List (String × String) → SPair → SPair
  | [], acc => acc
  | (k, v) :: rest, acc =>
    if v == "" then gatherKVsLoop nsi rest acc
    else
      match jsLookup nsi.kvt k with
      | none => gatherKVsLoop nsi rest acc
      | some _ =>
        if v != "yes" then
          gatherKVsLoop nsi rest { acc with primary := addSet acc.primary (k ++ "/" ++ v) }
        else
          gatherKVsLoop nsi rest { acc with alternate := addSet acc.alternate (k ++ "/" ++ v) }

/-- `gatherKVs(tags)`, including the generic-building fallback driven by the
external preset classification. -/
def gatherKVs {L : Type} (nsi : Nsi L) (tags : Tags) : SPair :=
  let s := gatherKVsLoop nsi tags ⟨[], []⟩
  if buildingPresetIds.contains (nsi.presetMatchId tags) then
    { s with alternate := addSet s.alternate "building/yes" }
  else s

/-! ### `gatherTuples` -/

structure Tuple where
  k : String
  v : String
  n : String
deriving DecidableEq

/-- `kv.split('/', 2)` and the tuple constructor.  Every gathered kv string
has the shape `key ++ "/" ++ value`, so both parts exist. -/
def tupleOfKV (kv n : String) : Tuple :=
  let parts := splitOnChar '/' kv
  ⟨parts.headD "", (parts.drop 1).headD "", n⟩

/-- `tryKVs[whichKV]` / `tryNames[whichName]`. -/
def spSel (s : SPair) (which : String) : List String :=
  if which == "primary" then s.primary else s.alternate

/-- `gatherTuples(tryKVs, tryNames)`: the literal nested `forEach` loops of
the source, name priority outermost, kv priority innermost. -/
def gatherTuples (tryKVs tryNames : SPair) : List Tuple :=
  ["primary", "alternate"].foldl (fun tuples whichName =>
    (spSel tryNames whichName).foldl (fun tuples n =>
      ["primary", "alternate"].foldl (fun tuples whichKV =>
        (spSel tryKVs whichKV).foldl (fun tuples kv =>
          tuples ++ [tupleOfKV kv n]) tuples) tuples) tuples) []

/-! ### The hit-selection loop of `_upgradeTags` (step 4b) -/

/-- The inner `for (let j = 0; …)` loop over the ranked hits.  In the source
the loop variable `item` persists across iterations, but on every path that
reaches the next iteration it is `null`/`undefined` (the dissolved `continue`
happens before `item` is reassigned, and then `item` still holds the
`null`/`undefined` left by the previous iteration or the initial declaration),
so the loop is equivalent to this first-match recursion. -/
def pickItem {L : Type} (nsi : Nsi L) (newTags : Tags) : List Hit → Option Item
  | [] => none
  | hit :: rest =>
    if nsi.dissolved hit.itemID then pickItem nsi newTags rest
    else
      match nsi.ids hit.itemID with
      | none => pickItem nsi newTags rest
      | some item =>
        let itemQID := jsLookup item.tags item.mainTag
        let notQID := jsLookup newTags ("not:" ++ item.mainTag)
        if (!truthyO itemQID || itemQID == notQID) ||
           (truthyO (jsLookup newTags "office") && !truthyO (jsLookup item.tags "office")) then
          pickItem nsi newTags rest
        else some item

/-- The claim's qualification condition for a single hit, written positively:
not dissolved; resolves to a known item; the item has a truthy value under its
tree's `mainTag`; that value differs from the feature's `not:<mainTag>` tag;
and not (the feature has an `office` tag while the item does not). -/
def hitQualifies {L : Type} (nsi : Nsi L) (newTags : Tags) (hit : Hit) : Bool :=
  !nsi.dissolved hit.itemID &&
  (match nsi.ids hit.itemID with
   | none => false
   | some item =>
     let itemQID := jsLookup item.tags item.mainTag
     let notQID := jsLookup newTags ("not:" ++ item.mainTag)
     truthyO itemQID && itemQID != notQID &&
     !(truthyO (jsLookup newTags "office") && !truthyO (jsLookup item.tags "office")))

/-! ### The `branch`-splitting heuristic (step 6) -/

/-- `origName.match(new RegExp('^' + escapeRegex(candidate) + '\\s(.+)$', 'i'))`.
The candidate is regex-escaped, hence matched literally (case-insensitively);
then one `\s` character; then `(.+)$`: a non-empty remainder containing no
line terminator, captured verbatim.  Returns the capture. -/
def matchBranch (cand orig : String) : Option String :=
  let oc := orig.toList
  let cc := cand.toList
  if (oc.take cc.length).map Char.toLower == cc.map Char.toLower then
    match oc.drop cc.length with
    | [] => none
    | w :: tail =>
      if jsWhitespaceChar w && !tail.isEmpty && tail.all (fun c => !lineTermChar c) then
        some (String.mk tail)
      else none
  else none

/-- Stable insertion (counterpart of the stable JS sort with comparator
`b.length - a.length`): a new element goes after existing elements of equal
or greater length. -/
def insertLenDesc (s : String) : List String → List String
  | [] => [s]
  | t :: rest => if s.toList.length ≤ t.toList.length then t :: insertLenDesc s rest
                 else s :: t :: rest

/-- `candidates.sort((a, b) => b.length - a.length)`: stable, longest first. -/
def sortLenDesc (l : List String) : List String :=
  l.foldl (fun acc s => insertLenDesc s acc) []

/-- Does this candidate's match against the original name capture a remainder
that survives `.trim()`? -/
def branchCandOk (orig c : String) : Bool :=
  match matchBranch c orig with
  | some cap => jsTrim cap != ""
  | none => false

/-- The candidate loop: on a regex match whose trimmed capture is non-empty,
store the untrimmed capture and stop; otherwise keep trying. -/
def firstBranch (orig : String) : List String → Option String
  | [] => none
  | c :: rest =>
    match matchBranch c orig with
    | some cap => if jsTrim cap != "" then some cap else firstBranch orig rest
    | none => firstBranch orig rest

/-- `new Set([...newNames.primary, ...newNames.alternate])` over the merged
tags. -/
def branchCandidates (newTags : Tags) : List String :=
  let newNames := gatherNames newTags
  jsSetOfList (newNames.primary ++ newNames.alternate)

/-- Step 6: possibly split the original name into canonical name + branch.
The guard is the source's
`if (newName && origName && newName !== origName && !newTags.branch)`,
then `isMoved` (the original name was absorbed into the new name set), then
the candidate loop over the longest-first sorted set. -/
def branchSplit (newTags : Tags) (origName : Option String) : Tags :=
  match jsLookup newTags "name", origName with
  | some nn, some og =>
    if nn != "" && og != "" && nn != og && !truthyO (jsLookup newTags "branch") then
      if (branchCandidates newTags).contains og then newTags
      else
        match firstBranch og (sortLenDesc (branchCandidates newTags)) with
        | some cap => mapSet newTags "branch" cap
        | none => newTags
    else newTags
  | _, _ => newTags

/-! ### `_upgradeTags` -/

/-- `osmkey.match(/^(\w+:)?wikidata$/)` (no `i` flag, case-sensitive).
Returns the matched prefix `matchTag[1] || ''` (the `\w+:` part, colon
included) when the key matches, `none` otherwise. -/
def wikidataKeyMatch (k : String) : Option String :=
  if k == "wikidata" then some ""
  else if strEndsWith k ":wikidata" && isWordStr (strDropRightChars k 9) then
    some (strDropRightChars k 8)
  else none

/-- One iteration of the trivial Wikipedia/Wikidata replacement loop (step 1),
threading the copy and the `changed` flag over one original key. -/
def replaceStep {L : Type} (nsi : Nsi L) (acc : Tags × Bool) (osmkey : String) : Tags × Bool :=
  match wikidataKeyMatch osmkey with
  | none => acc
  | some pre =>
    let wd := jsLookup acc.1 osmkey
    let replace := match wd with
      | some w => nsi.replacements w
      | none => none
    match replace with
    | none => acc
    | some rep =>
      let acc1 : Tags × Bool := match rep.wikidata with
        | none => acc
        | some w => (if w != "" then mapSet acc.1 osmkey w else mapDel acc.1 osmkey, true)
      match rep.wikipedia with
      | none => acc1
      | some w =>
        let wpkey := pre ++ "wikipedia"
        (if w != "" then mapSet acc1.1 wpkey w else mapDel acc1.1 wpkey, true)

/-- `_nsi.qids.get(tags.wikidata) || _nsi.qids.get(tags.wikipedia)` — read on
the original tags. -/
def foundQIDof {L : Type} (nsi : Nsi L) (tags : Tags) : Option String :=
  jsOrStr ((jsLookup tags "wikidata").bind nsi.qids)
          ((jsLookup tags "wikipedia").bind nsi.qids)

/-- The name candidates actually tried: `gatherNames(tags)` plus, when a qid
was found, `tryNames.primary.add(foundQID)`. -/
def namesTried {L : Type} (nsi : Nsi L) (tags : Tags) : SPair :=
  let tryNames := gatherNames tags
  match foundQIDof nsi tags with
  | some q => if q != "" then { tryNames with primary := addSet tryNames.primary q } else tryNames
  | none => tryNames

/-- The preserve-pattern list for a selected item:
`item.preserveTags || properties.preserveTags || []` (an empty array present
on the item is truthy in JS and is used as-is). -/
def preserveRegexes (item : Item) (category : Category) : List (String → Bool) :=
  match item.preserveTags with
  | some l => l
  | none =>
    match (category.properties.getD {}).preserveTags with
    | some l => l
    | none => []

/-- Steps 5–6 on a selected item: snapshot preserved tags, delete every key
known to `_nsi.kvt`, delete raw `wikidata`/`wikipedia` when the match came
via a qid, merge the item's canonical tags then the snapshot, and run the
branch heuristic.  `_nsi.data[item.tkv]` being absent makes the source throw
(`category.properties` on `undefined`). -/
def applyUpgrade {L : Type} (nsi : Nsi L) (tags newTags : Tags) (foundQID : Option String)
    (item : Item) : Except String Tags :=
  match nsi.data item.tkv with
  | none => .error "TypeError"
  | some category =>
    let regexes := preserveRegexes item category ++
      [fun s => lowerStr s == "building", fun s => lowerStr s == "takeaway"]
    let keepTags := newTags.filter (fun e => regexes.any (fun r => r e.1))
    let newTags1 := nsi.kvt.foldl (fun nt e => mapDel nt e.1) newTags
    let newTags2 := if truthyO foundQID then mapDel (mapDel newTags1 "wikipedia") "wikidata"
                    else newTags1
    let newTags3 := objAssign (objAssign newTags2 item.tags) keepTags
    .ok (branchSplit newTags3 (jsLookup tags "name"))

/-- The main tuple loop (step 4): query the matcher, skip tuples with no hits
or whose best hit is neither `primary` nor `alternate`, run the hit-selection
loop, and on a selected item apply the upgrade and return. -/
def tryTuples {L : Type} (nsi : Nsi L) (tags newTags : Tags) (foundQID : Option String)
    (loc : Option L) : List Tuple → Except String (Option Tags)
  | [] => .ok none
  | tuple :: rest =>
    match nsi.matcher tuple.k tuple.v tuple.n loc with
    | [] => tryTuples nsi tags newTags foundQID loc rest
    | hit0 :: hitRest =>
      if hit0.matchKind != "primary" && hit0.matchKind != "alternate" then
        tryTuples nsi tags newTags foundQID loc rest
      else
        match pickItem nsi newTags (hit0 :: hitRest) with
        | none => tryTuples nsi tags newTags foundQID loc rest
        | some item =>
          match applyUpgrade nsi tags newTags foundQID item with
          | .error e => .error e
          | .ok out => .ok (some out)

/-- `_upgradeTags(tags, loc)`.  The copy starts as a shallow copy of the
input; step 1 folds the replacement rule over the snapshot of the original
keys; early returns yield the copy when step 1 changed something, else
`null` (`none`). -/
def _upgradeTags {L : Type} (nsi : Nsi L) (tags : Tags) (loc : Option L) :
    Except String (Option Tags) :=
  let keys := tags.map (fun e => e.1)
  let repl := keys.foldl (replaceStep nsi) (tags, false)
  let newTags := repl.1
  let changed := repl.2
  let tryKVs := gatherKVs nsi tags
  if tryKVs.primary.isEmpty && tryKVs.alternate.isEmpty then
    .ok (if changed then some newTags else none)
  else
    let tryNames := namesTried nsi tags
    if tryNames.primary.isEmpty && tryNames.alternate.isEmpty then
      .ok (if changed then some newTags else none)
    else
      let tuples := gatherTuples tryKVs tryNames
      match tryTuples nsi tags newTags (foundQIDof nsi tags) loc tuples with
      | .error e => .error e
      | .ok (some out) => .ok (some out)
      | .ok none => .ok (if changed then some newTags else none)

/-- A call to `upgradeTags`, returning the result together with the input
object as it stands after the call.  The input is the only caller-visible
object; `_upgradeTags` copies it (`Object.assign({}, tags)`) and every write
(`newTags[k] = v`, `delete newTags[k]`, `Object.assign(newTags, …)`) in the
source targets the copy, while the input is only ever read (by `gatherKVs`,
`gatherNames`, and the `tags.wikidata`/`tags.wikipedia`/`tags.name` reads),
so the call leaves it untouched. -/
def upgradeTagsCall {L : Type} (nsi : Nsi L) (tags : Tags) (loc : Option L) :
    Except String (Option Tags) × Tags :=
  (_upgradeTags nsi tags loc, tags)

/-! ### Pre-load behaviour

Before `loadNsiData` resolves (status `loading`, or `failed` before the data
stage), the module state is `_nsi = {}`: the fields `replacements`, `kvt`,
`qids`, `dissolved`, `ids`, `matcher` are all `undefined`.  `gatherNames` and
`gatherTuples` never touch `_nsi`; every other step throws a `TypeError` as
soon as it dereferences one of those fields. -/

/-- `gatherKVs` with `_nsi = {}`: the first key with a truthy value reaches
`_nsi.kvt.get(osmkey)`, a method call on `undefined`, and throws.  If no
value is truthy, the loop finishes and only the external preset fallback can
contribute. -/
def gatherKVsPre (presetMatchId : Tags → String) (tags : Tags) : Except String SPair :=
  match tags.find? (fun e => e.2 != "") with
  | some _ => .error "TypeError"
  | none =>
    let s : SPair := ⟨[], []⟩
    if buildingPresetIds.contains (presetMatchId tags) then
      .ok { s with alternate := addSet s.alternate "building/yes" }
    else .ok s

/-- `_upgradeTags` with `_nsi = {}`: any key matching `/^(\w+:)?wikidata$/`
reaches `_nsi.replacements[wd]` (indexing `undefined`) and throws; otherwise
`gatherKVs` may throw; if candidate kv pairs survive (only via the preset
fallback), `gatherNames` runs fine but `_nsi.qids.get(…)` then throws
unconditionally. -/
def upgradeTagsPre (presetMatchId : Tags → String) (tags : Tags) :
    Except String (Option Tags) :=
  match (tags.map (fun e => e.1)).find? (fun k => (wikidataKeyMatch k).isSome) with
  | some _ => .error "TypeError"
  | none =>
    match gatherKVsPre presetMatchId tags with
    | .error e => .error e
    | .ok tryKVs =>
      if tryKVs.primary.isEmpty && tryKVs.alternate.isEmpty then
        .ok none
      else .error "TypeError"

/-- `_isGenericName` with `_nsi = {}`: no truthy `name` returns `false`
before any index is touched; a truthy `name` makes `gatherKVs` throw (the
`name` value itself is truthy).  Had `gatherKVs` produced candidates, the
tuple loop's `_nsi.matcher.match(…)` would throw instead. -/
def isGenericNamePre (presetMatchId : Tags → String) (tags : Tags) : Except String Bool :=
  match jsLookup tags "name" with
  | none => .ok false
  | some n =>
    if n == "" then .ok false
    else
      match gatherKVsPre presetMatchId tags with
      | .error e => .error e
      | .ok tryKVs =>
        if tryKVs.primary.isEmpty && tryKVs.alternate.isEmpty then .ok false
        else .error "TypeError"

/-! ### The index build of `loadNsiData`

The raw dataset arrives as JSON: categories under composite `tkv` keys, each
with an optional item list; the tree metadata maps tree ids to their
`mainTag`.  The build loop registers `kvt`, annotates and caches items, and
fills the qid cross-reference map.  `tkv.split('/', 3)` never fails: missing
parts are simply `undefined` (`Option`), and the `kvt` maps built from them
use possibly-undefined keys.  The only failing access is `tree.mainTag` when
the tree id is not in the metadata (`_nsi.trees[t]` is `undefined`). -/

structure RawItem where
  id : String
  tags : Tags

structure RawCategory where
  items : Option (List RawItem) := none

structure RawTree where
  mainTag : String

structure BuiltItem where
  id : String
  tags : Tags
  tkv : String
  mainTag : String
deriving DecidableEq

/-- The indices produced by the build loop (`kvt`, `qids`, `ids`); `kvt` keys
and value-map keys are `Option String` because a short `tkv` leaves
`parts[1]`/`parts[2]` `undefined`, which is a perfectly valid JS `Map` key. -/
structure BuiltNsi where
  kvt : List (Option String × List (Option String × String)) := []
  qids : List (String × String) := []
  ids : List (String × BuiltItem) := []
deriving DecidableEq

/-- Generic `Map.set` for the `Option String`-keyed maps of the build. -/
def omapSet {α : Type} (m : List (Option String × α)) (k : Option String) (v : α) :
    List (Option String × α) :=
  if m.any (fun e => e.1 == k) then m.map (fun e => if e.1 == k then (k, v) else e)
  else m ++ [(k, v)]

def ojsLookup {α : Type} (m : List (Option String × α)) (k : Option String) : Option α :=
  (m.find? (fun e => e.1 == k)).map (fun e => e.2)

/-- `let vmap = kvt.get(k); if (!vmap) { vmap = new Map(); kvt.set(k, vmap); }
vmap.set(v, t)`. -/
def kvtSet (kvt : List (Option String × List (Option String × String)))
    (k v : Option String) (t : String) :
    List (Option String × List (Option String × String)) :=
  match ojsLookup kvt k with
  | some vmap => omapSet kvt k (omapSet vmap v t)
  | none => kvt ++ [(k, omapSet [] v t)]

/-- The tree component `parts[0]` of a tkv key (`split` always returns at
least one part). -/
def tkvTreeOf (tkv : String) : String :=
  ((splitOnChar '/' tkv).take 3).headD ""

/-- Processing of one `tkv` entry of the dataset.  Registering into `kvt`
happens before the tree lookup; an unknown tree id then makes `tree.mainTag`
throw.  Within a category, each item is annotated, cached under its id, and
its `mainTag` / mirrored `wikipedia` values are registered into `qids`. -/
def buildStep (trees : List (String × RawTree)) (acc : BuiltNsi)
    (entry : String × RawCategory) : Except String BuiltNsi :=
  let tkv := entry.1
  let parts := (splitOnChar '/' tkv).take 3
  let t := parts.headD ""
  let k := parts[1]?
  let v := parts[2]?
  let acc := { acc with kvt := kvtSet acc.kvt k v t }
  match jsLookup trees t with
  | none => .error "TypeError"
  | some tree =>
    let mainTag := tree.mainTag
    let items := entry.2.items.getD []
    .ok (items.foldl (fun acc item =>
      let acc := { acc with ids := mapSet acc.ids item.id ⟨item.id, item.tags, tkv, mainTag⟩ }
      let wd := jsLookup item.tags mainTag
      let wp := jsLookup item.tags (jsReplaceFirst mainTag "wikidata" "wikipedia")
      let acc := match wd with
        | some w => if w != "" then { acc with qids := mapSet acc.qids w w } else acc
        | none => acc
      match wp, wd with
      | some p, some w => if p != "" && w != "" then { acc with qids := mapSet acc.qids p w } else acc
      | _, _ => acc) acc)

/-- The `Object.keys(_nsi.data).forEach` loop, aborted by the first thrown
`TypeError`. -/
def buildLoop (trees : List (String × RawTree)) (acc : BuiltNsi) :
    List (String × RawCategory) → Except String BuiltNsi
  | [] => .ok acc
  | e :: rest =>
    match buildStep trees acc e with
    | .error err => .error err
    | .ok acc2 => buildLoop trees acc2 rest

/-- The index build performed inside `loadNsiData` over the downloaded
dataset and tree metadata. -/
def buildIndices (data : List (String × RawCategory)) (trees : List (String × RawTree)) :
    Except String BuiltNsi :=
  buildLoop trees {} data

/-! ### Concrete contexts used as witnesses and counterexamples -/

/-- A minimal "Acme" convenience-store item. -/
def itemAcme : Item :=
  { id := "acme-1"
    tags := [("shop", "convenience"), ("name", "Acme"), ("brand", "Acme"),
             ("brand:wikidata", "Q1")]
    tkv := "brands/shop/convenience"
    mainTag := "brand:wikidata" }

/-- Context for the branch-splitting scenarios: one brand, one category, a
matcher that recognises any gathered name for `shop=convenience`. -/
def nsiC2 : Nsi Unit :=
  { data := fun tkv => if tkv == "brands/shop/convenience" then some {} else none
    dissolved := fun _ => false
    replacements := fun _ => none
    kvt := [("shop", [("convenience", "brands")])]
    qids := fun _ => none
    ids := fun i => if i == "acme-1" then some itemAcme else none
    matcher := fun k v _ _ =>
      if k == "shop" && v == "convenience" then [⟨"acme-1", "primary"⟩] else []
    presetMatchId := fun _ => "" }

/-- Context for the C3 counterexample: `kvt` lists `shop` with only the value
`supermarket` under it. -/
def nsi3 : Nsi Unit :=
  { data := fun _ => none
    dissolved := fun _ => false
    replacements := fun _ => none
    kvt := [("shop", [("supermarket", "brands")])]
    qids := fun _ => none
    ids := fun _ => none
    matcher := fun _ _ _ _ => []
    presetMatchId := fun _ => "" }

/-- An "Acme" supermarket item whose `preserveTags` carries a pattern whose
denotation matches the key `wikidata`. -/
def itemAcme6 : Item :=
  { id := "acme-6"
    tags := [("shop", "supermarket"), ("name", "Acme"), ("brand", "Acme"),
             ("brand:wikidata", "Q999"), ("brand:wikipedia", "en:Acme")]
    tkv := "brands/shop/supermarket"
    mainTag := "brand:wikidata"
    preserveTags := some [fun s => s == "wikidata"] }

/-- The same item without any preserve pattern. -/
def itemAcme6b : Item :=
  { itemAcme6 with preserveTags := none }

/-- Context for the C6 counterexample: the qid `Q999` resolves via `qids`,
and the selected item carries the `wikidata`-matching preserve pattern. -/
def nsi6 : Nsi Unit :=
  { data := fun tkv => if tkv == "brands/shop/supermarket" then some {} else none
    dissolved := fun _ => false
    replacements := fun _ => none
    kvt := [("shop", [("supermarket", "brands")])]
    qids := fun q => if q == "Q999" then some "Q999" else none
    ids := fun i => if i == "acme-6" then some itemAcme6 else none
    matcher := fun k v n _ =>
      if k == "shop" && v == "supermarket" && n == "Q999" then [⟨"acme-6", "primary"⟩] else []
    presetMatchId := fun _ => "" }

/-- The same context with the preserve-free item. -/
def nsi6b : Nsi Unit :=
  { nsi6 with ids := fun i => if i == "acme-6" then some itemAcme6b else none }

/-- Context for the C1 witness: the top-ranked hit is dissolved, the second
resolves to `itemAcme` and qualifies. -/
def nsiC1 : Nsi Unit :=
  { data := fun _ => none
    dissolved := fun i => i == "dead-1"
    replacements := fun _ => none
    kvt := []
    qids := fun _ => none
    ids := fun i => if i == "acme-1" then some itemAcme else none
    matcher := fun _ _ _ _ => [⟨"ghost-1", "primary"⟩]
    presetMatchId := fun _ => "" }

/-! ## Helper lemmas -/

theorem addSet_mem (l : List String) (s x : String) :
    x ∈ addSet l s ↔ x ∈ l ∨ x = s := by
  unfold addSet
  split
  · next hc =>
    have h : s ∈ l := by simpa using hc
    constructor
    · exact Or.inl
    · rintro (hx | rfl)
      · exact hx
      · exact h
  · next hc =>
    simp [List.mem_append]

theorem find?_cons_true {α : Type} (p : α → Bool) (a : α) (l : List α) (h : p a = true) :
    (a :: l).find? p = some a :=
  List.find?_cons_of_pos l h

theorem find?_cons_false {α : Type} (p : α → Bool) (a : α) (l : List α) (h : p a = false) :
    (a :: l).find? p = l.find? p :=
  List.find?_cons_of_neg l (by simp [h])

theorem find?_overwrite_skip {α : Type} (k k' : String) (v : α) (h : k ≠ k') :
    ∀ m : List (String × α),
      (m.map (fun e => if e.1 == k then (k, v) else e)).find? (fun e => e.1 == k') =
      m.find? (fun e => e.1 == k') := by
  intro m
  induction m with
  | nil => rfl
  | cons e rest ih =>
    simp only [List.map_cons]
    by_cases he : (e.1 == k) = true
    · have he1 : e.1 = k := by simpa using he
      rw [if_pos he]
      rw [find?_cons_false (fun e => e.1 == k') (k, v) _ (by simpa using h),
        find?_cons_false (fun e => e.1 == k') e _ (by simp [he1]; exact h)]
      exact ih
    · rw [if_neg he]
      by_cases he2 : (e.1 == k') = true
      · rw [find?_cons_true (fun e => e.1 == k') e _ he2,
          find?_cons_true (fun e => e.1 == k') e _ he2]
      · have he2f : (e.1 == k') = false := by simpa using he2
        rw [find?_cons_false (fun e => e.1 == k') e _ he2f,
          find?_cons_false (fun e => e.1 == k') e _ he2f]
        exact ih

theorem find?_overwrite_self {α : Type} (k : String) (v : α) :
    ∀ m : List (String × α), m.any (fun e => e.1 == k) = true →
      (m.map (fun e => if e.1 == k then (k, v) else e)).find? (fun e => e.1 == k) =
      some (k, v) := by
  intro m
  induction m with
  | nil => intro h; simp at h
  | cons e rest ih =>
    intro h
    simp only [List.map_cons]
    by_cases he : (e.1 == k) = true
    · rw [if_pos he]
      exact find?_cons_true (fun e => e.1 == k) (k, v) _ (by simp)
    · simp only [List.any_cons, he, Bool.false_or] at h
      have hef : (e.1 == k) = false := by simpa using he
      rw [if_neg he, find?_cons_false (fun e => e.1 == k) e _ hef]
      exact ih h

theorem find?_key_not_any {α : Type} (k : String) (m : List (String × α))
    (h : m.any (fun e => e.1 == k) = false) :
    m.find? (fun e => e.1 == k) = none :=
  List.find?_eq_none.mpr (List.any_eq_false.mp h)

theorem jsLookup_mapSet_self {α : Type} (m : List (String × α)) (k : String) (v : α) :
    jsLookup (mapSet m k v) k = some v := by
  unfold mapSet jsLookup
  cases h : m.any (fun e => e.1 == k) with
  | true =>
    rw [if_pos rfl, find?_overwrite_self k v m h]
    rfl
  | false =>
    rw [if_neg (by simp), List.find?_append, find?_key_not_any k m h, Option.none_or,
      find?_cons_true (fun e => e.1 == k) (k, v) [] (by simp)]
    rfl

theorem jsLookup_mapSet_ne {α : Type} (m : List (String × α)) (k k' : String) (v : α)
    (h : k ≠ k') : jsLookup (mapSet m k v) k' = jsLookup m k' := by
  unfold mapSet jsLookup
  cases hm : m.any (fun e => e.1 == k) with
  | true => rw [if_pos rfl, find?_overwrite_skip k k' v h]
  | false =>
    rw [if_neg (by simp), List.find?_append,
      find?_cons_false (fun e => e.1 == k') (k, v) [] (by simpa using h)]
    cases m.find? (fun e => e.1 == k') <;> rfl

theorem jsLookup_mapDel_self {α : Type} (m : List (String × α)) (k : String) :
    jsLookup (mapDel m k) k = none := by
  unfold mapDel jsLookup
  rw [List.find?_eq_none.mpr]
  · rfl
  · intro x hx
    have := (List.mem_filter.mp hx).2
    simpa [bne] using this

theorem jsLookup_mapDel_ne {α : Type} (m : List (String × α)) (k k' : String)
    (h : k ≠ k') : jsLookup (mapDel m k) k' = jsLookup m k' := by
  unfold mapDel jsLookup
  congr 1
  induction m with
  | nil => rfl
  | cons e rest ih =>
    simp only [List.filter_cons]
    by_cases hq : (e.1 != k) = true
    · rw [if_pos hq]
      by_cases hp : (e.1 == k') = true
      · rw [find?_cons_true (fun e => e.1 == k') e _ hp,
          find?_cons_true (fun e => e.1 == k') e _ hp]
      · have hpf : (e.1 == k') = false := by simpa using hp
        rw [find?_cons_false (fun e => e.1 == k') e _ hpf,
          find?_cons_false (fun e => e.1 == k') e _ hpf]
        exact ih
    · have he1 : e.1 = k := by simpa [bne] using hq
      have hpf : (e.1 == k') = false := by simp [he1]; exact h
      rw [if_neg hq, find?_cons_false (fun e => e.1 == k') e _ hpf, ih]

theorem jsLookup_objAssign_of_absent (s : Tags) :
    ∀ (t : Tags) (k : String), (∀ e ∈ s, e.1 ≠ k) →
      jsLookup (objAssign t s) k = jsLookup t k := by
  induction s with
  | nil => intro t k _; rfl
  | cons e rest ih =>
    intro t k h
    have h1 : e.1 ≠ k := h e (List.mem_cons_self e rest)
    have h2 : ∀ e' ∈ rest, e'.1 ≠ k := fun e' he' => h e' (List.mem_cons_of_mem e he')
    show jsLookup (objAssign (mapSet t e.1 e.2) rest) k = jsLookup t k
    rw [ih (mapSet t e.1 e.2) k h2, jsLookup_mapSet_ne t e.1 k e.2 h1]

theorem jsLookup_filter_absent (m : Tags) (p : String × String → Bool) (k : String)
    (h : ∀ e ∈ m, p e = true → e.1 ≠ k) :
    jsLookup (m.filter p) k = none := by
  unfold jsLookup
  rw [List.find?_eq_none.mpr]
  · rfl
  · intro x hx
    have hm := List.mem_filter.mp hx
    have := h x hm.1 hm.2
    simpa using this

theorem jsLookup_branchSplit_ne (nt : Tags) (og : Option String) (k : String)
    (h : k ≠ "branch") : jsLookup (branchSplit nt og) k = jsLookup nt k := by
  unfold branchSplit
  split
  · split
    · split
      · rfl
      · split
        · exact jsLookup_mapSet_ne nt "branch" k _ (Ne.symm h)
        · rfl
    · rfl
  · rfl

/-- The skip condition of the hit loop, negated, is the positive
qualification condition. -/
theorem bool_skip_negation (A E C : Bool) : (A && !E && !C) = !((!A || E) || C) := by
  cases A <;> cases E <;> cases C <;> rfl

theorem pickItem_eq_find {L : Type} (nsi : Nsi L) (newTags : Tags) :
    ∀ hits : List Hit,
      pickItem nsi newTags hits =
        (hits.find? (hitQualifies nsi newTags)).bind (fun h => nsi.ids h.itemID) := by
  intro hits
  induction hits with
  | nil => rfl
  | cons hit rest ih =>
    cases hd : nsi.dissolved hit.itemID with
    | true =>
      have hq : hitQualifies nsi newTags hit = false := by
        simp [hitQualifies, hd]
      have hp : pickItem nsi newTags (hit :: rest) = pickItem nsi newTags rest := by
        simp [pickItem, hd]
      rw [hp, find?_cons_false _ _ _ hq]
      exact ih
    | false =>
      cases hi : nsi.ids hit.itemID with
      | none =>
        have hq : hitQualifies nsi newTags hit = false := by
          simp [hitQualifies, hd, hi]
        have hp : pickItem nsi newTags (hit :: rest) = pickItem nsi newTags rest := by
          simp [pickItem, hd, hi]
        rw [hp, find?_cons_false _ _ _ hq]
        exact ih
      | some item =>
        cases hs : ((!truthyO (jsLookup item.tags item.mainTag) ||
            jsLookup item.tags item.mainTag == jsLookup newTags ("not:" ++ item.mainTag)) ||
            (truthyO (jsLookup newTags "office") && !truthyO (jsLookup item.tags "office"))) with
        | true =>
          have hq : hitQualifies nsi newTags hit = false := by
            simp only [hitQualifies, hd, hi, Bool.not_false, Bool.true_and, bne,
              bool_skip_negation, hs]
            try rfl
          have hp : pickItem nsi newTags (hit :: rest) = pickItem nsi newTags rest := by
            simp only [pickItem, hd, hi, hs]
            try rfl
          rw [hp, find?_cons_false _ _ _ hq]
          exact ih
        | false =>
          have hq : hitQualifies nsi newTags hit = true := by
            simp only [hitQualifies, hd, hi, Bool.not_false, Bool.true_and, bne,
              bool_skip_negation, hs]
            try rfl
          have hp : pickItem nsi newTags (hit :: rest) = some item := by
            simp only [pickItem, hd, hi, hs]
            try rfl
          rw [hp, find?_cons_true _ _ _ hq]
          simp [Option.bind, hi]

theorem foldl_push {α β : Type} (f : α → β) :
    ∀ (l : List α) (acc : List β),
      l.foldl (fun ts x => ts ++ [f x]) acc = acc ++ l.map f := by
  intro l
  induction l with
  | nil => intro acc; simp
  | cons x xs ih =>
    intro acc
    simp [ih, List.append_assoc]

theorem gatherTuples_inner (kvs : SPair) (n : String) (t0 : List Tuple) :
    ["primary", "alternate"].foldl (fun tuples whichKV =>
        (spSel kvs whichKV).foldl (fun ts kv => ts ++ [tupleOfKV kv n]) tuples) t0 =
      t0 ++ (kvs.primary ++ kvs.alternate).map (fun kv => tupleOfKV kv n) := by
  show (spSel kvs "alternate").foldl (fun ts kv => ts ++ [tupleOfKV kv n])
      ((spSel kvs "primary").foldl (fun ts kv => ts ++ [tupleOfKV kv n]) t0) = _
  rw [foldl_push, foldl_push]
  simp [spSel, List.append_assoc]

theorem gatherTuples_names (kvs : SPair) :
    ∀ (ns : List String) (t0 : List Tuple),
      ns.foldl (fun tuples n =>
          ["primary", "alternate"].foldl (fun tuples whichKV =>
            (spSel kvs whichKV).foldl (fun ts kv => ts ++ [tupleOfKV kv n]) tuples) tuples) t0 =
        t0 ++ ns.flatMap (fun n => (kvs.primary ++ kvs.alternate).map (fun kv => tupleOfKV kv n)) := by
  intro ns
  induction ns with
  | nil => intro t0; simp
  | cons n ns ih =>
    intro t0
    rw [List.foldl_cons, gatherTuples_inner, ih, List.flatMap_cons, List.append_assoc]

/-- `gatherTuples` is the full cross product, names outermost
(primary names before alternate names), kv pairs innermost (primary kv pairs
before alternate kv pairs). -/
theorem gatherTuples_eq (kvs names : SPair) :
    gatherTuples kvs names =
      (names.primary ++ names.alternate).flatMap
        (fun n => (kvs.primary ++ kvs.alternate).map (fun kv => tupleOfKV kv n)) := by
  show (spSel names "alternate").foldl _ ((spSel names "primary").foldl _ []) = _
  rw [show spSel names "primary" = names.primary from rfl,
    show spSel names "alternate" = names.alternate from rfl,
    gatherTuples_names, gatherTuples_names, List.nil_append, List.flatMap_append]

/-- One unfolding step of the `gatherKVs` key loop. -/
theorem gatherKVsLoop_cons {L : Type} (nsi : Nsi L) (k v : String)
    (rest : List (String × String)) (acc : SPair) :
    gatherKVsLoop nsi ((k, v) :: rest) acc =
      if v == "" then gatherKVsLoop nsi rest acc
      else
        match jsLookup nsi.kvt k with
        | none => gatherKVsLoop nsi rest acc
        | some _ =>
          if v != "yes" then
            gatherKVsLoop nsi rest { acc with primary := addSet acc.primary (k ++ "/" ++ v) }
          else
            gatherKVsLoop nsi rest { acc with alternate := addSet acc.alternate (k ++ "/" ++ v) } :=
  rfl

/-- Membership in the primary set produced by the `gatherKVs` key loop. -/
theorem gatherKVsLoop_mem_primary {L : Type} (nsi : Nsi L) :
    ∀ (l : List (String × String)) (acc : SPair) (x : String),
      x ∈ (gatherKVsLoop nsi l acc).primary ↔
        x ∈ acc.primary ∨ ∃ e ∈ l, e.2 ≠ "" ∧ (jsLookup nsi.kvt e.1).isSome ∧
          e.2 ≠ "yes" ∧ x = e.1 ++ "/" ++ e.2 := by
  intro l
  induction l with
  | nil =>
    intro acc x
    simp [gatherKVsLoop]
  | cons e rest ih =>
    intro acc x
    obtain ⟨k, v⟩ := e
    rw [gatherKVsLoop_cons]
    by_cases hv : (v == "") = true
    · have hv' : v = "" := by simpa using hv
      rw [if_pos hv, ih]
      simp [hv']
    · have hv' : ¬v = "" := by simpa using hv
      rw [if_neg hv]
      cases hkv : jsLookup nsi.kvt k with
      | none =>
        show x ∈ (gatherKVsLoop nsi rest acc).primary ↔ _
        rw [ih]
        simp [hkv, hv']
      | some vm =>
        by_cases hy : (v != "yes") = true
        · have hy' : ¬v = "yes" := by simpa using hy
          show x ∈ ((if v != "yes" then
              gatherKVsLoop nsi rest { acc with primary := addSet acc.primary (k ++ "/" ++ v) }
            else
              gatherKVsLoop nsi rest { acc with alternate := addSet acc.alternate (k ++ "/" ++ v) })).primary ↔ _
          rw [if_pos hy, ih]
          simp only [addSet_mem, List.mem_cons]
          constructor
          · rintro ((hx | rfl) | ⟨e', he', hcond⟩)
            · exact Or.inl hx
            · exact Or.inr ⟨(k, v), Or.inl rfl, hv', by simp [hkv], hy', rfl⟩
            · exact Or.inr ⟨e', Or.inr he', hcond⟩
          · rintro (hx | ⟨e', he' | he', hcond⟩)
            · exact Or.inl (Or.inl hx)
            · subst he'
              exact Or.inl (Or.inr hcond.2.2.2)
            · exact Or.inr ⟨e', he', hcond⟩
        · have hy' : v = "yes" := by simpa using hy
          show x ∈ ((if v != "yes" then
              gatherKVsLoop nsi rest { acc with primary := addSet acc.primary (k ++ "/" ++ v) }
            else
              gatherKVsLoop nsi rest { acc with alternate := addSet acc.alternate (k ++ "/" ++ v) })).primary ↔ _
          rw [if_neg hy, ih]
          simp only [List.mem_cons]
          constructor
          · rintro (hx | ⟨e', he', hcond⟩)
            · exact Or.inl hx
            · exact Or.inr ⟨e', Or.inr he', hcond⟩
          · rintro (hx | ⟨e', he' | he', hcond⟩)
            · exact Or.inl hx
            · subst he'
              exact absurd hy' hcond.2.2.1
            · exact Or.inr ⟨e', he', hcond⟩

/-- Membership in the alternate set produced by the `gatherKVs` key loop. -/
theorem gatherKVsLoop_mem_alternate {L : Type} (nsi : Nsi L) :
    ∀ (l : List (String × String)) (acc : SPair) (x : String),
      x ∈ (gatherKVsLoop nsi l acc).alternate ↔
        x ∈ acc.alternate ∨ ∃ e ∈ l, e.2 = "yes" ∧ (jsLookup nsi.kvt e.1).isSome ∧
          x = e.1 ++ "/" ++ e.2 := by
  intro l
  induction l with
  | nil =>
    intro acc x
    simp [gatherKVsLoop]
  | cons e rest ih =>
    intro acc x
    obtain ⟨k, v⟩ := e
    rw [gatherKVsLoop_cons]
    by_cases hv : (v == "") = true
    · have hv' : v = "" := by simpa using hv
      rw [if_pos hv, ih]
      simp [hv']
    · have hv' : ¬v = "" := by simpa using hv
      rw [if_neg hv]
      cases hkv : jsLookup nsi.kvt k with
      | none =>
        show x ∈ (gatherKVsLoop nsi rest acc).alternate ↔ _
        rw [ih]
        simp [hkv]
      | some vm =>
        by_cases hy : (v != "yes") = true
        · have hy' : ¬v = "yes" := by simpa using hy
          show x ∈ ((if v != "yes" then
              gatherKVsLoop nsi rest { acc with primary := addSet acc.primary (k ++ "/" ++ v) }
            else
              gatherKVsLoop nsi rest { acc with alternate := addSet acc.alternate (k ++ "/" ++ v) })).alternate ↔ _
          rw [if_pos hy, ih]
          simp only [List.mem_cons]
          constructor
          · rintro (hx | ⟨e', he', hcond⟩)
            · exact Or.inl hx
            · exact Or.inr ⟨e', Or.inr he', hcond⟩
          · rintro (hx | ⟨e', he' | he', hcond⟩)
            · exact Or.inl hx
            · subst he'
              exact absurd hcond.1 hy'
            · exact Or.inr ⟨e', he', hcond⟩
        · have hy' : v = "yes" := by simpa using hy
          show x ∈ ((if v != "yes" then
              gatherKVsLoop nsi rest { acc with primary := addSet acc.primary (k ++ "/" ++ v) }
            else
              gatherKVsLoop nsi rest { acc with alternate := addSet acc.alternate (k ++ "/" ++ v) })).alternate ↔ _
          rw [if_neg hy, ih]
          simp only [addSet_mem, List.mem_cons]
          constructor
          · rintro ((hx | rfl) | ⟨e', he', hcond⟩)
            · exact Or.inl hx
            · exact Or.inr ⟨(k, v), Or.inl rfl, hy', by simp [hkv], rfl⟩
            · exact Or.inr ⟨e', Or.inr he', hcond⟩
          · rintro (hx | ⟨e', he' | he', hcond⟩)
            · exact Or.inl (Or.inl hx)
            · subst he'
              exact Or.inl (Or.inr hcond.2.2)
            · exact Or.inr ⟨e', he', hcond⟩

/-- One unfolding step of the `gatherNames` key loop. -/
theorem gatherNamesLoop_cons (pats : NamePatterns) (k v : String)
    (rest : List (String × String)) (p a : List String) (fs : Bool) :
    gatherNamesLoop pats ((k, v) :: rest) (p, a, fs) =
      if v == "" then gatherNamesLoop pats rest (p, a, fs)
      else if isNamelikePrimary pats k then
        (if hasSemi v then gatherNamesLoop pats rest (p, a, true)
         else gatherNamesLoop pats rest (addSet p v, a, fs))
      else if !p.contains v && isNamelikeAlternate pats k then
        (if hasSemi v then gatherNamesLoop pats rest (p, a, true)
         else gatherNamesLoop pats rest (p, addSet a v, fs))
      else gatherNamesLoop pats rest (p, a, fs) :=
  rfl

/-- Once the semicolon flag is set, it stays set. -/
theorem gatherNamesLoop_semi_mono (pats : NamePatterns) :
    ∀ (l : List (String × String)) (p a : List String),
      (gatherNamesLoop pats l (p, a, true)).2.2 = true := by
  intro l
  induction l with
  | nil => intro p a; rfl
  | cons e rest ih =>
    intro p a
    obtain ⟨k, v⟩ := e
    rw [gatherNamesLoop_cons]
    by_cases hv : (v == "") = true
    · rw [if_pos hv]; exact ih p a
    · rw [if_neg hv]
      by_cases hp : isNamelikePrimary pats k = true
      · rw [if_pos hp]
        by_cases hsv : hasSemi v = true
        · rw [if_pos hsv]; exact ih p a
        · rw [if_neg hsv]; exact ih _ a
      · rw [if_neg hp]
        by_cases ha : (!p.contains v && isNamelikeAlternate pats k) = true
        · rw [if_pos ha]
          by_cases hsv : hasSemi v = true
          · rw [if_pos hsv]; exact ih p a
          · rw [if_neg hsv]; exact ih p _
        · rw [if_neg ha]; exact ih p a

/-- If the loop still has ahead of it an entry with a non-empty,
semicolon-containing value whose key is namelike (primary or alternate), and
every value gathered into the primary set so far is semicolon-free, then the
loop ends with the semicolon flag set. -/
theorem gatherNamesLoop_semi_found (pats : NamePatterns) :
    ∀ (l : List (String × String)) (p a : List String) (fs : Bool),
      (∀ x ∈ p, hasSemi x = false) →
      (∃ e ∈ l, e.2 ≠ "" ∧ hasSemi e.2 = true ∧
        (isNamelikePrimary pats e.1 = true ∨ isNamelikeAlternate pats e.1 = true)) →
      (gatherNamesLoop pats l (p, a, fs)).2.2 = true := by
  intro l
  induction l with
  | nil =>
    intro p a fs _ hex
    simp at hex
  | cons e rest ih =>
    intro p a fs hinv hex
    obtain ⟨k, v⟩ := e
    cases fs with
    | true => exact gatherNamesLoop_semi_mono pats ((k, v) :: rest) p a
    | false =>
      rw [gatherNamesLoop_cons]
      obtain ⟨e', he', hne, hsemi, hnl⟩ := hex
      rcases List.mem_cons.mp he' with he0 | herest
      · -- the witness entry is the head
        subst he0
        have hvf : ¬(v == "") = true := by simpa using hne
        rw [if_neg hvf]
        rcases hnl with hnp | hna
        · rw [if_pos hnp, if_pos hsemi]
          exact gatherNamesLoop_semi_mono pats rest p a
        · by_cases hp : isNamelikePrimary pats k = true
          · rw [if_pos hp, if_pos hsemi]
            exact gatherNamesLoop_semi_mono pats rest p a
          · have hnotin : p.contains v = false := by
              cases hc : p.contains v with
              | false => rfl
              | true =>
                have : v ∈ p := by simpa using hc
                rw [hinv v this] at hsemi
                exact absurd hsemi (by simp)
            rw [if_neg hp, if_pos (by rw [hnotin, hna]; rfl), if_pos hsemi]
            exact gatherNamesLoop_semi_mono pats rest p a
      · -- the witness entry is further on: step once, preserving the invariant
        have hexr : ∃ e ∈ rest, e.2 ≠ "" ∧ hasSemi e.2 = true ∧
            (isNamelikePrimary pats e.1 = true ∨ isNamelikeAlternate pats e.1 = true) :=
          ⟨e', herest, hne, hsemi, hnl⟩
        by_cases hv : (v == "") = true
        · rw [if_pos hv]; exact ih p a false hinv hexr
        · rw [if_neg hv]
          by_cases hp : isNamelikePrimary pats k = true
          · rw [if_pos hp]
            by_cases hsv : hasSemi v = true
            · rw [if_pos hsv]
              exact gatherNamesLoop_semi_mono pats rest p a
            · rw [if_neg hsv]
              refine ih _ a false ?_ hexr
              intro x hx
              rcases (addSet_mem p v x).mp hx with hxp | rfl
              · exact hinv x hxp
              · simpa using hsv
          · rw [if_neg hp]
            by_cases ha : (!p.contains v && isNamelikeAlternate pats k) = true
            · rw [if_pos ha]
              by_cases hsv : hasSemi v = true
              · rw [if_pos hsv]
                exact gatherNamesLoop_semi_mono pats rest p a
              · rw [if_neg hsv]
                exact ih p _ false hinv hexr
            · rw [if_neg ha]
              exact ih p a false hinv hexr

/-- A namelike entry whose value contains a semicolon empties the whole
`gatherNames` result. -/
theorem gatherNames_semi_empty (tags : Tags) (k v : String)
    (hmem : (k, v) ∈ tags) (hne : v ≠ "") (hsemi : hasSemi v = true)
    (hnl : isNamelikePrimary (choosePatterns tags) k = true ∨
           isNamelikeAlternate (choosePatterns tags) k = true) :
    gatherNames tags = ⟨[], []⟩ := by
  simp only [gatherNames]
  have hloop : (gatherNamesLoop (choosePatterns tags) tags ([], [], false)).2.2 = true :=
    gatherNamesLoop_semi_found (choosePatterns tags) tags [] [] false
      (by intro x hx; simp at hx) ⟨(k, v), hmem, hne, hsemi, Or.imp id id hnl⟩
  obtain ⟨p0, a0, fs0, hacc⟩ : ∃ p0 a0 fs0,
      gatherNamesLoop (choosePatterns tags) tags ([], [], false) = (p0, a0, fs0) :=
    ⟨_, _, _, rfl⟩
  rw [hacc] at hloop ⊢
  have hfs : fs0 = true := hloop
  subst hfs
  have hstep : ∀ acc2 : List String × List String × Bool, acc2.2.2 = true →
      (if acc2.2.2 then (⟨[], []⟩ : SPair) else ⟨acc2.1, acc2.2.1⟩) = ⟨[], []⟩ := by
    intro acc2 h2
    rw [h2]
    rfl
  apply hstep
  split
  · split
    · split
      · rfl
      · rfl
    · rfl
  · rfl

/-- The candidate loop returns exactly the capture of the first candidate
whose match has a non-whitespace remainder. -/
theorem firstBranch_eq_find :
    ∀ (cands : List String) (orig : String),
      firstBranch orig cands =
        (cands.find? (branchCandOk orig)).bind (fun c => matchBranch c orig) := by
  intro cands
  induction cands with
  | nil => intro orig; rfl
  | cons c rest ih =>
    intro orig
    cases hm : matchBranch c orig with
    | none =>
      have hq : branchCandOk orig c = false := by
        show (match matchBranch c orig with
              | some cap => jsTrim cap != ""
              | none => false) = false
        rw [hm]
      have hstep : firstBranch orig (c :: rest) = firstBranch orig rest := by
        show (match matchBranch c orig with
              | some cap => if jsTrim cap != "" then some cap else firstBranch orig rest
              | none => firstBranch orig rest) = firstBranch orig rest
        rw [hm]
      rw [hstep, find?_cons_false _ _ _ hq]
      exact ih orig
    | some cap =>
      by_cases ht : (jsTrim cap != "") = true
      · have hq : branchCandOk orig c = true := by
          show (match matchBranch c orig with
                | some cap => jsTrim cap != ""
                | none => false) = true
          rw [hm]
          exact ht
        have hstep : firstBranch orig (c :: rest) = some cap := by
          show (match matchBranch c orig with
                | some cap => if jsTrim cap != "" then some cap else firstBranch orig rest
                | none => firstBranch orig rest) = some cap
          rw [hm]
          show (if jsTrim cap != "" then some cap else firstBranch orig rest) = some cap
          rw [if_pos ht]
        rw [hstep, find?_cons_true _ _ _ hq]
        simp [Option.bind, hm]
      · have hq : branchCandOk orig c = false := by
          show (match matchBranch c orig with
                | some cap => jsTrim cap != ""
                | none => false) = false
          rw [hm]
          simpa using ht
        have hstep : firstBranch orig (c :: rest) = firstBranch orig rest := by
          show (match matchBranch c orig with
                | some cap => if jsTrim cap != "" then some cap else firstBranch orig rest
                | none => firstBranch orig rest) = firstBranch orig rest
          rw [hm]
          show (if jsTrim cap != "" then some cap else firstBranch orig rest) =
            firstBranch orig rest
          rw [if_neg ht]
        rw [hstep, find?_cons_false _ _ _ hq]
        exact ih orig

/-- A stored branch capture always survives trimming. -/
theorem firstBranch_some_trim (orig : String) (cands : List String) (cap : String)
    (h : firstBranch orig cands = some cap) : jsTrim cap ≠ "" := by
  rw [firstBranch_eq_find] at h
  cases hf : cands.find? (branchCandOk orig) with
  | none =>
    rw [hf] at h
    simp at h
  | some c =>
    rw [hf] at h
    have hq := List.find?_some hf
    have hm : matchBranch c orig = some cap := by simpa [Option.bind] using h
    have hq2 : (jsTrim cap != "") = true := by
      have : (match matchBranch c orig with
              | some cap => jsTrim cap != ""
              | none => false) = true := hq
      rw [hm] at this
      exact this
    simpa using hq2

theorem insertLenDesc_mem (s x : String) :
    ∀ l : List String, x ∈ insertLenDesc s l ↔ x ∈ l ∨ x = s := by
  intro l
  induction l with
  | nil => simp [insertLenDesc]
  | cons t rest ih =>
    unfold insertLenDesc
    split
    · simp only [List.mem_cons, ih]
      tauto
    · simp only [List.mem_cons]
      tauto

theorem insertLenDesc_pairwise (s : String) :
    ∀ l : List String,
      l.Pairwise (fun a b => strLen b ≤ strLen a) →
      (insertLenDesc s l).Pairwise (fun a b => strLen b ≤ strLen a) := by
  intro l
  induction l with
  | nil => intro _; simp [insertLenDesc]
  | cons t rest ih =>
    intro hp
    unfold insertLenDesc
    split
    · next hle =>
      rw [List.pairwise_cons] at hp ⊢
      refine ⟨?_, ih hp.2⟩
      intro x hx
      rcases (insertLenDesc_mem s x rest).mp hx with hxr | rfl
      · exact hp.1 x hxr
      · exact hle
    · next hgt =>
      rw [List.pairwise_cons] at hp ⊢
      have hts : strLen t ≤ strLen s := Nat.le_of_not_le (by simpa [strLen] using hgt)
      refine ⟨?_, ?_⟩
      · intro x hx
        rcases List.mem_cons.mp hx with rfl | hxr
        · exact hts
        · exact Nat.le_trans (hp.1 x hxr) hts
      · rw [List.pairwise_cons]
        exact hp

theorem sortLenDesc_aux_mem (x : String) :
    ∀ (l acc : List String),
      x ∈ l.foldl (fun acc s => insertLenDesc s acc) acc ↔ x ∈ acc ∨ x ∈ l := by
  intro l
  induction l with
  | nil => intro acc; simp
  | cons s rest ih =>
    intro acc
    rw [List.foldl_cons, ih, insertLenDesc_mem]
    simp only [List.mem_cons]
    tauto

theorem sortLenDesc_mem (l : List String) (x : String) :
    x ∈ sortLenDesc l ↔ x ∈ l := by
  unfold sortLenDesc
  rw [sortLenDesc_aux_mem]
  simp

theorem sortLenDesc_aux_pairwise :
    ∀ (l acc : List String),
      acc.Pairwise (fun a b => strLen b ≤ strLen a) →
      (l.foldl (fun acc s => insertLenDesc s acc) acc).Pairwise
        (fun a b => strLen b ≤ strLen a) := by
  intro l
  induction l with
  | nil => intro acc h; exact h
  | cons s rest ih =>
    intro acc h
    rw [List.foldl_cons]
    exact ih _ (insertLenDesc_pairwise s acc h)

/-- The sort really is longest-first (and contains exactly the candidates). -/
theorem sortLenDesc_sorted (l : List String) :
    (sortLenDesc l).Pairwise (fun a b => strLen b ≤ strLen a) :=
  sortLenDesc_aux_pairwise l [] (by simp)

theorem jsLookup_none_keys {α : Type} (m : List (String × α)) (k : String)
    (h : jsLookup m k = none) : ∀ e ∈ m, e.1 ≠ k := by
  have hf : m.find? (fun e => e.1 == k) = none := by
    cases hc : m.find? (fun e => e.1 == k) with
    | none => rfl
    | some e =>
      unfold jsLookup at h
      rw [hc] at h
      simp at h
  intro e he
  have := List.find?_eq_none.mp hf e he
  simpa using this

theorem jsLookup_some_mem {α : Type} (m : List (String × α)) (k : String) (v : α)
    (h : jsLookup m k = some v) : (k, v) ∈ m := by
  unfold jsLookup at h
  cases hf : m.find? (fun e => e.1 == k) with
  | none => rw [hf] at h; simp at h
  | some e =>
    rw [hf] at h
    have hk := List.find?_some hf
    have hm : e ∈ m := List.mem_of_find?_eq_some hf
    obtain ⟨e1, e2⟩ := e
    have hk' : e1 = k := by simpa using hk
    have hv : e2 = v := by simpa using h
    subst hk'
    subst hv
    exact hm

/-! ## The claims -/

/-- C1: in step 4b of `upgrade`, for a tuple whose top hit is classified
`primary` or `alternate`, the selected item is the item of the first ranked
hit satisfying all of: not in the dissolved set; resolves to a known item;
the item has a truthy value under its tree's `mainTag`; that value differs
from the feature's `not:<mainTag>` tag; and not (the feature carries `office`
while the item does not).  A qualifying hit is never dissolved, so a
dissolved item is never the selected target, and when no hit of the tuple
qualifies the loop moves on to the next tuple. -/
theorem nsi_C1 {L : Type} (nsi : Nsi L) (newTags : Tags) (hits : List Hit) :
    pickItem nsi newTags hits =
      (hits.find? (hitQualifies nsi newTags)).bind (fun h => nsi.ids h.itemID)
    ∧ (∀ h : Hit, hits.find? (hitQualifies nsi newTags) = some h →
        nsi.dissolved h.itemID = false)
    ∧ (∀ (tags : Tags) (q : Option String) (loc : Option L) (tp : Tuple)
          (rest : List Tuple),
        pickItem nsi newTags (nsi.matcher tp.k tp.v tp.n loc) = none →
        tryTuples nsi tags newTags q loc (tp :: rest) =
          tryTuples nsi tags newTags q loc rest) := by
  refine ⟨pickItem_eq_find nsi newTags hits, ?_, ?_⟩
  · intro h hf
    have hq := List.find?_some hf
    cases hd : nsi.dissolved h.itemID with
    | false => rfl
    | true =>
      unfold hitQualifies at hq
      rw [hd] at hq
      simp at hq
  · intro tags q loc tp rest hnone
    show (match nsi.matcher tp.k tp.v tp.n loc with
          | [] => tryTuples nsi tags newTags q loc rest
          | hit0 :: hitRest =>
            if hit0.matchKind != "primary" && hit0.matchKind != "alternate" then
              tryTuples nsi tags newTags q loc rest
            else
              match pickItem nsi newTags (hit0 :: hitRest) with
              | none => tryTuples nsi tags newTags q loc rest
              | some item =>
                match applyUpgrade nsi tags newTags q item with
                | .error e => .error e
                | .ok out => .ok (some out)) =
        tryTuples nsi tags newTags q loc rest
    cases hm : nsi.matcher tp.k tp.v tp.n loc with
    | nil => rfl
    | cons hit0 hitRest =>
      rw [hm] at hnone
      show (if hit0.matchKind != "primary" && hit0.matchKind != "alternate" then
              tryTuples nsi tags newTags q loc rest
            else
              match pickItem nsi newTags (hit0 :: hitRest) with
              | none => tryTuples nsi tags newTags q loc rest
              | some item =>
                match applyUpgrade nsi tags newTags q item with
                | .error e => .error e
                | .ok out => .ok (some out)) =
          tryTuples nsi tags newTags q loc rest
      rw [hnone]
      split
      · rfl
      · rfl

/-- Witness for C1: at `nsiC1` the dissolved top hit `dead-1` is skipped and
the second hit's item is selected; a tuple with no qualifying hit falls
through. -/
theorem nsi_C1_witness :
    pickItem nsiC1 [] [⟨"dead-1", "primary"⟩, ⟨"acme-1", "primary"⟩] = some itemAcme ∧
    nsiC1.dissolved "dead-1" = true ∧
    tryTuples nsiC1 [] [] none none [⟨"shop", "x", "n"⟩] =
      tryTuples nsiC1 [] [] none none [] := by
  refine ⟨?_, rfl, ?_⟩
  · have h := (nsi_C1 nsiC1 [] [⟨"dead-1", "primary"⟩, ⟨"acme-1", "primary"⟩]).1
    rw [h]
    rfl
  · exact (nsi_C1 nsiC1 [] []).2.2 [] none none ⟨"shop", "x", "n"⟩ [] (by rfl)

/-- C5: `gatherTuples` returns exactly the cross product of the name and kv
candidate lists in nested priority order: primary names (then alternate
names) outermost, and for each name primary kv pairs before alternate kv
pairs. -/
theorem nsi_C5 (tryKVs tryNames : SPair) :
    gatherTuples tryKVs tryNames =
      (tryNames.primary ++ tryNames.alternate).flatMap
        (fun n => (tryKVs.primary ++ tryKVs.alternate).map (fun kv => tupleOfKV kv n)) :=
  gatherTuples_eq tryKVs tryNames

/-- Witness for C5 at concrete candidate sets. -/
theorem nsi_C5_witness :
    gatherTuples ⟨["shop/deli"], ["building/yes"]⟩ ⟨["A"], ["B"]⟩ =
      [⟨"shop", "deli", "A"⟩, ⟨"building", "yes", "A"⟩,
       ⟨"shop", "deli", "B"⟩, ⟨"building", "yes", "B"⟩] := by
  rw [nsi_C5]
  rfl

/-- C3 counterexample: `gatherKVs` checks only that the key is present in
`keyValueTree`; the pair `shop=bakery` is added to the primary set even
though `bakery` does not appear among the values listed under `shop`. -/
theorem nsi_C3_counterexample :
    (gatherKVs nsi3 [("shop", "bakery")]).primary = ["shop/bakery"] ∧
    jsLookup nsi3.kvt "shop" = some [("supermarket", "brands")] ∧
    (∀ e ∈ [("supermarket", "brands")], e.1 ≠ "bakery") :=
  ⟨rfl, rfl, by decide⟩

/-- C3 amended: a pair `key/value` is gathered iff the value is non-empty and
the key is present in `keyValueTree` (the value map found under the key is
not consulted); a qualifying pair goes to primary when the value is not
`yes`, to alternate when it is, and the alternate set additionally holds
`building/yes` exactly when the external preset classification is on the
building allow-list. -/
theorem nsi_C3_amended {L : Type} (nsi : Nsi L) (tags : Tags) (x : String) :
    (x ∈ (gatherKVs nsi tags).primary ↔
      ∃ e ∈ tags, e.2 ≠ "" ∧ (jsLookup nsi.kvt e.1).isSome ∧ e.2 ≠ "yes" ∧
        x = e.1 ++ "/" ++ e.2)
    ∧ (x ∈ (gatherKVs nsi tags).alternate ↔
      (∃ e ∈ tags, e.2 = "yes" ∧ (jsLookup nsi.kvt e.1).isSome ∧
        x = e.1 ++ "/" ++ e.2) ∨
      (buildingPresetIds.contains (nsi.presetMatchId tags) = true ∧
        x = "building/yes")) := by
  unfold gatherKVs
  constructor
  · split
    · show x ∈ (gatherKVsLoop nsi tags ⟨[], []⟩).primary ↔ _
      rw [gatherKVsLoop_mem_primary]
      simp
    · rw [gatherKVsLoop_mem_primary]
      simp
  · split
    · next hb =>
      show x ∈ addSet (gatherKVsLoop nsi tags ⟨[], []⟩).alternate "building/yes" ↔ _
      rw [addSet_mem, gatherKVsLoop_mem_alternate]
      have hb2 : nsi.presetMatchId tags ∈ buildingPresetIds := by simpa using hb
      simp [hb2]
    · next hb =>
      rw [gatherKVsLoop_mem_alternate]
      have hb2 : nsi.presetMatchId tags ∉ buildingPresetIds := by simpa using hb
      simp [hb2]

/-- Witness for C3 amended at the counterexample context. -/
theorem nsi_C3_witness :
    "shop/bakery" ∈ (gatherKVs nsi3 [("shop", "bakery")]).primary := by
  rw [(nsi_C3_amended nsi3 [("shop", "bakery")] "shop/bakery").1]
  exact ⟨("shop", "bakery"), by decide, by decide, by rfl, by decide, rfl⟩

/-- General early-return lemma: when no key looks like `*:wikidata` and the
tried name sets come out empty, `upgrade` returns null. -/
theorem upgradeTags_no_names {L : Type} (nsi : Nsi L) (tags : Tags) (loc : Option L)
    (hkeys : ∀ e ∈ tags, wikidataKeyMatch e.1 = none)
    (hnames : namesTried nsi tags = ⟨[], []⟩) :
    _upgradeTags nsi tags loc = .ok none := by
  have hfold : ∀ (ks : List String), (∀ k ∈ ks, wikidataKeyMatch k = none) →
      ks.foldl (replaceStep nsi) (tags, false) = (tags, false) := by
    intro ks
    induction ks with
    | nil => intro _; rfl
    | cons k ks ih =>
      intro h
      rw [List.foldl_cons]
      have hstep : replaceStep nsi (tags, false) k = (tags, false) := by
        unfold replaceStep
        rw [h k (List.mem_cons_self k ks)]
      rw [hstep]
      exact ih (fun k2 hk2 => h k2 (List.mem_cons_of_mem k hk2))
  simp only [_upgradeTags]
  rw [hfold (tags.map (fun e => e.1)) (by
    intro k hk
    obtain ⟨e, he, rfl⟩ := List.mem_map.mp hk
    exact hkeys e he)]
  split
  · rfl
  · rw [hnames]
    rfl

/-- C4: a namelike tag value containing `;` empties the whole name-gathering
result, and consequently for `{shop=supermarket, name=A;B}` zero name
candidates are gathered and `upgrade` returns null, for every index state
and location. -/
theorem nsi_C4 :
    (∀ (tags : Tags) (k v : String), (k, v) ∈ tags → v ≠ "" → hasSemi v = true →
      (isNamelikePrimary (choosePatterns tags) k = true ∨
       isNamelikeAlternate (choosePatterns tags) k = true) →
      gatherNames tags = ⟨[], []⟩)
    ∧ gatherNames [("shop", "supermarket"), ("name", "A;B")] = ⟨[], []⟩
    ∧ (∀ (L : Type) (nsi : Nsi L) (loc : Option L),
        _upgradeTags nsi [("shop", "supermarket"), ("name", "A;B")] loc = .ok none) := by
  refine ⟨?_, rfl, ?_⟩
  · intro tags k v hmem hne hsemi hnl
    exact gatherNames_semi_empty tags k v hmem hne hsemi hnl
  · intro L nsi loc
    refine upgradeTags_no_names nsi _ loc (by decide) rfl

/-- Witness for C4 at the concrete semicolon feature. -/
theorem nsi_C4_witness :
    gatherNames [("shop", "supermarket"), ("name", "A;B")] = ⟨[], []⟩ ∧
    _upgradeTags nsi3 [("shop", "supermarket"), ("name", "A;B")] none = .ok none := by
  refine ⟨?_, nsi_C4.2.2 Unit nsi3 none⟩
  exact nsi_C4.1 [("shop", "supermarket"), ("name", "A;B")] "name" "A;B"
    (by decide) (by decide) (by decide) (Or.inl (by decide))

/-- C2 counterexample: feature named `"Acme  "` (trailing whitespace) matched
to the canonical `Acme` item.  The branch-splitting conditions all hold and
the longest candidate `"Acme"` does match `^Acme\s(.+)$` against the original
name, capturing `" "`, yet no `branch` tag is set — the claim's "on the first
match sets branch to the captured remainder" is false when the capture is
whitespace-only. -/
theorem nsi_C2_counterexample :
    _upgradeTags nsiC2 [("shop", "convenience"), ("name", "Acme  ")] none =
      .ok (some [("name", "Acme"), ("shop", "convenience"), ("brand", "Acme"),
                 ("brand:wikidata", "Q1")]) ∧
    jsLookup [("name", "Acme"), ("shop", "convenience"), ("brand", "Acme"),
      ("brand:wikidata", "Q1")] "branch" = none ∧
    sortLenDesc (branchCandidates [("name", "Acme"), ("shop", "convenience"),
      ("brand", "Acme"), ("brand:wikidata", "Q1")]) = ["Acme", "Q1"] ∧
    matchBranch "Acme" "Acme  " = some " " ∧
    (branchCandidates [("name", "Acme"), ("shop", "convenience"), ("brand", "Acme"),
      ("brand:wikidata", "Q1")]).contains "Acme  " = false :=
  ⟨rfl, rfl, rfl, rfl, rfl⟩

/-- C2 amended: when the merged name exists and differs from the original
name, no `branch` tag exists, and the original name is not among the merged
name candidates, the heuristic scans the candidates sorted longest-first
(stably) and sets `branch` to the untrimmed capture of the first candidate
matching `^<value>\s(.+)$` case-insensitively *whose capture is non-empty
after trimming*; candidates whose capture trims to nothing are passed over.
E.g. item `Acme` against `name=Acme Riverside` yields `branch=Riverside`
(witness). -/
theorem nsi_C2_amended (nt : Tags) (og nn : String)
    (hname : jsLookup nt "name" = some nn) (hnn : nn ≠ "") (hog : og ≠ "")
    (hne : nn ≠ og) (hbr : truthyO (jsLookup nt "branch") = false)
    (hmoved : (branchCandidates nt).contains og = false) :
    (branchSplit nt (some og) =
      match (sortLenDesc (branchCandidates nt)).find? (branchCandOk og) with
      | some c => mapSet nt "branch" ((matchBranch c og).getD "")
      | none => nt)
    ∧ (sortLenDesc (branchCandidates nt)).Pairwise (fun a b => strLen b ≤ strLen a)
    ∧ (∀ x, x ∈ sortLenDesc (branchCandidates nt) ↔ x ∈ branchCandidates nt)
    ∧ (∀ cap, firstBranch og (sortLenDesc (branchCandidates nt)) = some cap →
        jsTrim cap ≠ "") := by
  refine ⟨?_, sortLenDesc_sorted _, fun x => sortLenDesc_mem _ x,
    fun cap h => firstBranch_some_trim og _ cap h⟩
  have hred : branchSplit nt (some og) =
      (if nn != "" && og != "" && nn != og && !truthyO (jsLookup nt "branch") then
        if (branchCandidates nt).contains og then nt
        else
          match firstBranch og (sortLenDesc (branchCandidates nt)) with
          | some cap => mapSet nt "branch" cap
          | none => nt
       else nt) := by
    unfold branchSplit
    rw [hname]
  rw [hred, if_pos (by simp [hnn, hog, hne, hbr]), if_neg (by simpa using hmoved),
    firstBranch_eq_find]
  cases hf : (sortLenDesc (branchCandidates nt)).find? (branchCandOk og) with
  | none => rfl
  | some c =>
    have hq := List.find?_some hf
    have hq2 : (match matchBranch c og with
                | some cap => jsTrim cap != ""
                | none => false) = true := hq
    cases hm : matchBranch c og with
    | none =>
      rw [hm] at hq2
      simp at hq2
    | some cap =>
      show (match (some cap).bind (fun _ => matchBranch c og) with
            | some cap => mapSet nt "branch" cap
            | none => nt) = mapSet nt "branch" ((matchBranch c og).getD "")
      rw [hm]
      rfl

/-- Witness for C2 amended: the Acme example, both at the heuristic level and
end-to-end through `upgrade`. -/
theorem nsi_C2_witness :
    branchSplit [("name", "Acme"), ("shop", "convenience"), ("brand", "Acme"),
        ("brand:wikidata", "Q1")] (some "Acme Riverside") =
      [("name", "Acme"), ("shop", "convenience"), ("brand", "Acme"),
       ("brand:wikidata", "Q1"), ("branch", "Riverside")] ∧
    _upgradeTags nsiC2 [("shop", "convenience"), ("name", "Acme Riverside")] none =
      .ok (some [("name", "Acme"), ("shop", "convenience"), ("brand", "Acme"),
                 ("brand:wikidata", "Q1"), ("branch", "Riverside")]) := by
  constructor
  · have h := (nsi_C2_amended
      [("name", "Acme"), ("shop", "convenience"), ("brand", "Acme"), ("brand:wikidata", "Q1")]
      "Acme Riverside" "Acme" rfl (by decide) (by decide) (by decide) rfl rfl).1
    rw [h]
    rfl
  · rfl

/-- C10: the branch heuristic stores a value only when the captured remainder
is non-empty after trimming; a candidate whose match captures only whitespace
is skipped and the next (shorter) candidate is tried; and the value actually
stored in `branch` is the untrimmed capture. -/
theorem nsi_C10 :
    (∀ (orig : String) (cands : List String) (cap : String),
      firstBranch orig cands = some cap → jsTrim cap ≠ "")
    ∧ (∀ (orig c : String) (rest : List String) (cap : String),
        matchBranch c orig = some cap → jsTrim cap = "" →
        firstBranch orig (c :: rest) = firstBranch orig rest)
    ∧ (∀ (orig c : String) (rest : List String) (cap : String),
        matchBranch c orig = some cap → jsTrim cap ≠ "" →
        firstBranch orig (c :: rest) = some cap)
    ∧ (∀ (nt : Tags) (og : String),
        branchSplit nt (some og) = nt ∨
        ∃ cap, jsTrim cap ≠ "" ∧
          firstBranch og (sortLenDesc (branchCandidates nt)) = some cap ∧
          branchSplit nt (some og) = mapSet nt "branch" cap) := by
  refine ⟨fun orig cands cap h => firstBranch_some_trim orig cands cap h, ?_, ?_, ?_⟩
  · intro orig c rest cap hm ht
    show (match matchBranch c orig with
          | some cap => if jsTrim cap != "" then some cap else firstBranch orig rest
          | none => firstBranch orig rest) = firstBranch orig rest
    rw [hm]
    show (if jsTrim cap != "" then some cap else firstBranch orig rest) =
      firstBranch orig rest
    rw [if_neg (by simp [ht])]
  · intro orig c rest cap hm ht
    show (match matchBranch c orig with
          | some cap => if jsTrim cap != "" then some cap else firstBranch orig rest
          | none => firstBranch orig rest) = some cap
    rw [hm]
    show (if jsTrim cap != "" then some cap else firstBranch orig rest) = some cap
    rw [if_pos (by simpa using ht)]
  · intro nt og
    cases hn : jsLookup nt "name" with
    | none =>
      left
      unfold branchSplit
      rw [hn]
    | some nn =>
      have hred : branchSplit nt (some og) =
          (if nn != "" && og != "" && nn != og && !truthyO (jsLookup nt "branch") then
            if (branchCandidates nt).contains og then nt
            else
              match firstBranch og (sortLenDesc (branchCandidates nt)) with
              | some cap => mapSet nt "branch" cap
              | none => nt
           else nt) := by
        unfold branchSplit
        rw [hn]
      rw [hred]
      by_cases hcond : (nn != "" && og != "" && nn != og &&
          !truthyO (jsLookup nt "branch")) = true
      · rw [if_pos hcond]
        by_cases hmov : ((branchCandidates nt).contains og) = true
        · rw [if_pos hmov]
          left
          rfl
        · rw [if_neg hmov]
          cases hf : firstBranch og (sortLenDesc (branchCandidates nt)) with
          | none => left; rfl
          | some cap =>
            right
            exact ⟨cap, firstBranch_some_trim og _ cap hf, rfl, rfl⟩
      · rw [if_neg hcond]
        left
        rfl

/-- Witness for C10: the whitespace-only capture `" "` is skipped, the
non-empty capture `"Riverside"` is stored untrimmed. -/
theorem nsi_C10_witness :
    firstBranch "Acme  " ["Acme"] = firstBranch "Acme  " [] ∧
    firstBranch "Acme Riverside" ["Acme", "Q1"] = some "Riverside" ∧
    jsTrim " " = "" := by
  refine ⟨?_, ?_, rfl⟩
  · exact nsi_C10.2.1 "Acme  " "Acme" [] " " rfl rfl
  · exact nsi_C10.2.2.1 "Acme Riverside" "Acme" ["Q1"] "Riverside" rfl (by decide)

/-- C6 counterexample: with a dataset `preserveTags` pattern matching the key
`wikidata`, the snapshot taken before the deletions re-applies the raw
`wikidata` tag after the merge, so it is *not* deleted from the result even
though the match came via the qid index. -/
theorem nsi_C6_counterexample :
    _upgradeTags nsi6 [("shop", "supermarket"), ("wikidata", "Q999")] none =
      .ok (some [("shop", "supermarket"), ("name", "Acme"), ("brand", "Acme"),
                 ("brand:wikidata", "Q999"), ("brand:wikipedia", "en:Acme"),
                 ("wikidata", "Q999")]) ∧
    jsLookup [("shop", "supermarket"), ("name", "Acme"), ("brand", "Acme"),
      ("brand:wikidata", "Q999"), ("brand:wikipedia", "en:Acme"),
      ("wikidata", "Q999")] "wikidata" = some "Q999" ∧
    itemAcme6.preserveTags = some [fun s => s == "wikidata"] :=
  ⟨rfl, rfl, rfl⟩

/-- C6 amended: a cross-reference value resolved through the qids index is
added as an extra primary name candidate; and when an item is then selected,
the raw `wikidata`/`wikipedia` tags are deleted before the merge, so they are
absent from the result provided neither the item's canonical tags nor a
preserve-pattern snapshot re-introduces them. -/
theorem nsi_C6_amended :
    (∀ (L : Type) (nsi : Nsi L) (tags : Tags) (q : String),
      foundQIDof nsi tags = some q → q ≠ "" → q ∈ (namesTried nsi tags).primary)
    ∧ (∀ (L : Type) (nsi : Nsi L) (tags newTags : Tags) (q : String) (item : Item)
        (cat : Category) (out : Tags),
        nsi.data item.tkv = some cat → q ≠ "" →
        (∀ r ∈ preserveRegexes item cat, r "wikidata" = false ∧ r "wikipedia" = false) →
        jsLookup item.tags "wikidata" = none → jsLookup item.tags "wikipedia" = none →
        applyUpgrade nsi tags newTags (some q) item = .ok out →
        jsLookup out "wikidata" = none ∧ jsLookup out "wikipedia" = none) := by
  constructor
  · intro L nsi tags q hfq hq
    unfold namesTried
    rw [hfq]
    show q ∈ (if (q != "") = true then
        { primary := addSet (gatherNames tags).primary q,
          alternate := (gatherNames tags).alternate }
      else gatherNames tags).primary
    rw [if_pos (by simpa using hq)]
    exact (addSet_mem _ q q).mpr (Or.inr rfl)
  · intro L nsi tags newTags q item cat out hdata hq hpres hwd hwp happ
    have htq : truthyO (some q) = true := by
      unfold truthyO
      simpa using hq
    simp only [applyUpgrade, hdata, htq, if_pos rfl, Except.ok.injEq] at happ
    subst happ
    have hbuiltin : ∀ r ∈ [fun s => lowerStr s == "building",
        fun s => lowerStr s == "takeaway"],
        r "wikidata" = false ∧ r "wikipedia" = false := by
      intro r hr
      rcases List.mem_cons.mp hr with rfl | hr2
      · exact ⟨by decide, by decide⟩
      · rcases List.mem_cons.mp hr2 with rfl | hr3
        · exact ⟨by decide, by decide⟩
        · simp at hr3
    have hkeep : ∀ key : String, key = "wikidata" ∨ key = "wikipedia" →
        ∀ e ∈ newTags.filter (fun e =>
          (preserveRegexes item cat ++ [fun s => lowerStr s == "building",
            fun s => lowerStr s == "takeaway"]).any (fun r => r e.1)),
          e.1 ≠ key := by
      intro key hkey e he heq
      have hp := (List.mem_filter.mp he).2
      rw [heq] at hp
      obtain ⟨r, hr, hrt⟩ := List.any_eq_true.mp hp
      rcases List.mem_append.mp hr with hr1 | hr2
      · rcases hkey with rfl | rfl
        · rw [(hpres r hr1).1] at hrt
          exact absurd hrt (by simp)
        · rw [(hpres r hr1).2] at hrt
          exact absurd hrt (by simp)
      · rcases hkey with rfl | rfl
        · rw [(hbuiltin r hr2).1] at hrt
          exact absurd hrt (by simp)
        · rw [(hbuiltin r hr2).2] at hrt
          exact absurd hrt (by simp)
    constructor
    · rw [jsLookup_branchSplit_ne _ _ _ (by decide),
        jsLookup_objAssign_of_absent _ _ _ (hkeep "wikidata" (Or.inl rfl)),
        jsLookup_objAssign_of_absent _ _ _ (jsLookup_none_keys item.tags "wikidata" hwd)]
      simp only [if_true]
      rw [jsLookup_mapDel_self]
    · rw [jsLookup_branchSplit_ne _ _ _ (by decide),
        jsLookup_objAssign_of_absent _ _ _ (hkeep "wikipedia" (Or.inr rfl)),
        jsLookup_objAssign_of_absent _ _ _ (jsLookup_none_keys item.tags "wikipedia" hwp)]
      simp only [if_true]
      rw [jsLookup_mapDel_ne _ _ _ (by decide), jsLookup_mapDel_self]

/-- Witness for C6 amended: the qid `Q999` becomes a primary name candidate,
and with no preserve pattern the upgraded result carries neither `wikidata`
nor `wikipedia`, end-to-end. -/
theorem nsi_C6_witness :
    "Q999" ∈ (namesTried nsi6 [("shop", "supermarket"), ("wikidata", "Q999")]).primary ∧
    _upgradeTags nsi6b [("shop", "supermarket"), ("wikidata", "Q999")] none =
      .ok (some [("shop", "supermarket"), ("name", "Acme"), ("brand", "Acme"),
                 ("brand:wikidata", "Q999"), ("brand:wikipedia", "en:Acme")]) ∧
    jsLookup [("shop", "supermarket"), ("name", "Acme"), ("brand", "Acme"),
      ("brand:wikidata", "Q999"), ("brand:wikipedia", "en:Acme")] "wikidata" = none ∧
    jsLookup [("shop", "supermarket"), ("name", "Acme"), ("brand", "Acme"),
      ("brand:wikidata", "Q999"), ("brand:wikipedia", "en:Acme")] "wikipedia" = none := by
  refine ⟨?_, rfl, rfl, rfl⟩
  exact nsi_C6_amended.1 Unit nsi6 [("shop", "supermarket"), ("wikidata", "Q999")]
    "Q999" rfl (by decide)

/-- C7: `upgrade` never mutates its input.  The input object is the only
caller-visible object; the source copies it and every write targets the
copy, so a call returns the input object untouched, key for key. -/
theorem nsi_C7 {L : Type} (nsi : Nsi L) (tags : Tags) (loc : Option L) :
    (upgradeTagsCall nsi tags loc).2 = tags ∧
    (∀ k, jsLookup (upgradeTagsCall nsi tags loc).2 k = jsLookup tags k) ∧
    (upgradeTagsCall nsi tags loc).1 = _upgradeTags nsi tags loc :=
  ⟨rfl, fun _ => rfl, rfl⟩

/-- Witness for C7 at a concrete call whose result differs from the input. -/
theorem nsi_C7_witness :
    (upgradeTagsCall nsiC2 [("shop", "convenience"), ("name", "Acme Riverside")] none).2 =
      [("shop", "convenience"), ("name", "Acme Riverside")] :=
  (nsi_C7 nsiC2 [("shop", "convenience"), ("name", "Acme Riverside")] none).1

/-- C8 counterexample: with the pre-load state `_nsi = {}`, `upgrade` on
`{shop=x}` throws a TypeError (method call on the undefined `_nsi.kvt`), and
`isGeneric` on a feature with a truthy name throws likewise — not the
degraded null/false result the claim promises. -/
theorem nsi_C8_counterexample :
    upgradeTagsPre (fun _ => "") [("shop", "x")] = .error "TypeError" ∧
    isGenericNamePre (fun _ => "") [("shop", "convenience"), ("name", "Acme")] =
      .error "TypeError" :=
  ⟨rfl, rfl⟩

/-- C8 amended: pre-load, `_nsi` is the empty object `{}`, not an
empty-but-well-typed index structure.  `upgrade` throws a TypeError whenever
any tag value is non-empty (and on any `*:wikidata` key); it completes,
returning null, only when no index access is reached: all values empty, no
`*:wikidata` key, and no building-preset fallback.  `isGeneric` returns false
when the `name` tag is missing or empty and throws otherwise. -/
theorem nsi_C8_amended :
    (∀ (pm : Tags → String) (tags : Tags), (∃ e ∈ tags, e.2 ≠ "") →
      upgradeTagsPre pm tags = .error "TypeError")
    ∧ (∀ (pm : Tags → String) (tags : Tags),
        (∀ e ∈ tags, e.2 = "") → (∀ e ∈ tags, wikidataKeyMatch e.1 = none) →
        buildingPresetIds.contains (pm tags) = false →
        upgradeTagsPre pm tags = .ok none)
    ∧ (∀ (pm : Tags → String) (tags : Tags),
        truthyO (jsLookup tags "name") = false → isGenericNamePre pm tags = .ok false)
    ∧ (∀ (pm : Tags → String) (tags : Tags) (n : String),
        jsLookup tags "name" = some n → n ≠ "" →
        isGenericNamePre pm tags = .error "TypeError") := by
  have hkverr : ∀ (pm : Tags → String) (tags : Tags), (∃ e ∈ tags, e.2 ≠ "") →
      gatherKVsPre pm tags = .error "TypeError" := by
    intro pm tags ⟨e, he, hne⟩
    have hfs : ((tags.find? (fun e => e.2 != "")).isSome) = true :=
      List.find?_isSome.mpr ⟨e, he, by simpa using hne⟩
    unfold gatherKVsPre
    cases hf : tags.find? (fun e => e.2 != "") with
    | none => rw [hf] at hfs; simp at hfs
    | some e2 => rfl
  refine ⟨?_, ?_, ?_, ?_⟩
  · intro pm tags hex
    unfold upgradeTagsPre
    cases hk : (tags.map (fun e => e.1)).find?
        (fun k => (wikidataKeyMatch k).isSome) with
    | some k => rfl
    | none =>
      rw [hkverr pm tags hex]
  · intro pm tags hvals hkeys hpreset
    unfold upgradeTagsPre
    have hk : (tags.map (fun e => e.1)).find?
        (fun k => (wikidataKeyMatch k).isSome) = none := by
      rw [List.find?_eq_none]
      intro k hkm
      obtain ⟨e, he, rfl⟩ := List.mem_map.mp hkm
      simp [hkeys e he]
    rw [hk]
    have hg : gatherKVsPre pm tags = .ok ⟨[], []⟩ := by
      unfold gatherKVsPre
      have hf : tags.find? (fun e => e.2 != "") = none := by
        rw [List.find?_eq_none]
        intro e he
        simp [hvals e he]
      rw [hf]
      simp only [hpreset]
      rfl
    rw [hg]
    rfl
  · intro pm tags htn
    unfold isGenericNamePre
    cases hn : jsLookup tags "name" with
    | none => rfl
    | some n =>
      have hn0 : n = "" := by
        rw [hn] at htn
        simpa [truthyO] using htn
      subst hn0
      rfl
  · intro pm tags n hname hne
    unfold isGenericNamePre
    rw [hname]
    show (if n == "" then Except.ok false
          else match gatherKVsPre pm tags with
            | .error e => .error e
            | .ok tryKVs =>
              if tryKVs.primary.isEmpty && tryKVs.alternate.isEmpty then Except.ok false
              else .error "TypeError") = .error "TypeError"
    rw [if_neg (by simpa using hne)]
    have hmem : ("name", n) ∈ tags := jsLookup_some_mem tags "name" n hname
    rw [hkverr pm tags ⟨("name", n), hmem, hne⟩]

/-- Witness for C8 amended at concrete pre-load calls. -/
theorem nsi_C8_witness :
    upgradeTagsPre (fun _ => "") [("wikidata", "Q1")] = .error "TypeError" ∧
    upgradeTagsPre (fun _ => "") [("shop", "")] = .ok none ∧
    isGenericNamePre (fun _ => "") [("shop", "x")] = .ok false ∧
    isGenericNamePre (fun _ => "") [("name", "Acme")] = .error "TypeError" := by
  refine ⟨?_, ?_, ?_, ?_⟩
  · exact nsi_C8_amended.1 (fun _ => "") [("wikidata", "Q1")]
      ⟨("wikidata", "Q1"), by decide, by decide⟩
  · exact nsi_C8_amended.2.1 (fun _ => "") [("shop", "")]
      (by decide) (by decide) (by decide)
  · exact nsi_C8_amended.2.2.1 (fun _ => "") [("shop", "x")] (by decide)
  · exact nsi_C8_amended.2.2.2 (fun _ => "") [("name", "Acme")] "Acme" rfl (by decide)

/-- A tkv entry whose tree id is missing from the tree metadata makes the
build step throw (`tree.mainTag` on `undefined`). -/
theorem buildStep_tree_none (trees : List (String × RawTree)) (acc : BuiltNsi)
    (e : String × RawCategory) (h : jsLookup trees (tkvTreeOf e.1) = none) :
    buildStep trees acc e = .error "TypeError" := by
  unfold tkvTreeOf at h
  simp only [buildStep]
  rw [h]

/-- A tkv entry whose tree id is present never makes the build step throw. -/
theorem buildStep_tree_some (trees : List (String × RawTree)) (acc : BuiltNsi)
    (e : String × RawCategory) (tree : RawTree)
    (h : jsLookup trees (tkvTreeOf e.1) = some tree) :
    ∃ acc2, buildStep trees acc e = .ok acc2 := by
  unfold tkvTreeOf at h
  simp only [buildStep]
  rw [h]
  exact ⟨_, rfl⟩

theorem buildLoop_error_iff (trees : List (String × RawTree)) :
    ∀ (l : List (String × RawCategory)) (acc : BuiltNsi),
      (∃ err, buildLoop trees acc l = .error err) ↔
        ∃ e ∈ l, jsLookup trees (tkvTreeOf e.1) = none := by
  intro l
  induction l with
  | nil =>
    intro acc
    constructor
    · rintro ⟨err, herr⟩
      exact absurd herr (by simp [buildLoop])
    · rintro ⟨e, he, _⟩
      simp at he
  | cons e rest ih =>
    intro acc
    constructor
    · rintro ⟨err, herr⟩
      unfold buildLoop at herr
      revert herr
      cases hl : jsLookup trees (tkvTreeOf e.1) with
      | none =>
        intro _
        exact ⟨e, List.mem_cons_self e rest, hl⟩
      | some tree =>
        obtain ⟨acc2, hstep⟩ := buildStep_tree_some trees acc e tree hl
        rw [hstep]
        intro herr
        obtain ⟨e2, he2, h2⟩ := (ih acc2).mp ⟨err, herr⟩
        exact ⟨e2, List.mem_cons_of_mem e he2, h2⟩
    · rintro ⟨e2, he2, h2⟩
      rcases List.mem_cons.mp he2 with rfl | hrest
      · refine ⟨"TypeError", ?_⟩
        unfold buildLoop
        rw [buildStep_tree_none trees acc e2 h2]
      · cases hl : jsLookup trees (tkvTreeOf e.1) with
        | none =>
          refine ⟨"TypeError", ?_⟩
          unfold buildLoop
          rw [buildStep_tree_none trees acc e hl]
        | some tree =>
          obtain ⟨acc2, hstep⟩ := buildStep_tree_some trees acc e tree hl
          obtain ⟨err, herr⟩ := (ih acc2).mpr ⟨e2, hrest, h2⟩
          refine ⟨err, ?_⟩
          unfold buildLoop
          rw [hstep]
          exact herr

/-- C9 counterexample: the two-part tkv key `brands/shop` does not make the
build fail; it is silently registered (with an undefined value slot) and the
build returns indices. -/
theorem nsi_C9_counterexample :
    buildIndices [("brands/shop", ⟨some []⟩)] [("brands", ⟨"brand:wikidata"⟩)] =
      .ok ⟨[(some "shop", [(none, "brands")])], [], []⟩ ∧
    (splitOnChar '/' "brands/shop").length = 2 :=
  ⟨rfl, rfl⟩

/-- C9 amended: the index build is total and throws (a generic TypeError —
there is no dedicated DataShapeError) exactly when some tkv key references a
tree id that is not defined in the tree metadata; a tkv key that does not
split into three parts does not by itself abort the build. -/
theorem nsi_C9_amended (data : List (String × RawCategory))
    (trees : List (String × RawTree)) :
    (∃ err, buildIndices data trees = .error err) ↔
      ∃ e ∈ data, jsLookup trees (tkvTreeOf e.1) = none :=
  buildLoop_error_iff trees data {}

/-- Witness for C9 amended: a dataset whose single entry references the
undefined tree `ghost` fails to build. -/
theorem nsi_C9_witness :
    (∃ err, buildIndices [("ghost/shop/x", ⟨some []⟩)]
      [("brands", ⟨"brand:wikidata"⟩)] = .error err) := by
  exact (nsi_C9_amended [("ghost/shop/x", ⟨some []⟩)]
    [("brands", ⟨"brand:wikidata"⟩)]).mpr
    ⟨("ghost/shop/x", ⟨some []⟩), List.mem_singleton.mpr rfl, by rfl⟩

end NsiSpec